import Mathlib

/-!
# Colorful Todo (`app.js`): storage adapter and UI state machine

A shallow embedding of `generated_project_ToDo_list/app.js`.

## The model

* JavaScript values are the inductive type `JVal`; texts (JS strings, the
  contents of `localStorage`) are lists of characters.
* `JSON.stringify` and `JSON.parse` are functions of the platform, not of the
  program.  They are modelled by an executable serializer (`JVal.stringify`)
  and a recursive-descent reader of the JSON grammar (`parseJ`, `jsonParse`).
  The reader recurses on a fuel argument that `jsonParse` sets to the length of
  the text plus one; `parseJ_fuel_irrelevant` shows that more fuel never
  changes a result.  Numbers are exact decimals `mant / 10 ^ scale`: IEEE
  rounding, `NaN` and the infinities are outside the model, and so are lone
  surrogate code units in strings.
* `Todo`, `StorageManager`, `state`, `renderTodos`, `renderTodoItem` and the
  listeners registered by `init` follow the source statement by statement.
  Instances of `Todo` live in an explicit heap, `state.todos` is a list of
  addresses, and a rendered `<li>` keeps the address of the instance its
  listeners captured: the aliasing between the array and the closures is kept.
* Of the page, the model keeps the children of `#todo-list` and the state of
  their checkboxes.  Classes, `aria` attributes, the texts shown inside an
  element and the reset of the form are display details without effect on the
  state and are left out.  `Date.now()` and the values of the form inputs are
  inputs of the submit event.

## The results

The theorems come in the order of the layers: the reader and the serializer
(reading back strings, integers, objects and arrays; fuel), the storage adapter
(totality of `loadTodos`, the round trip, `loadTheme`), rendering and sorting,
persistence after each listener, toggling and deleting, sequences of adds, and
the consistency of the page in every reachable state.
-/

namespace TodoApp

/-! ## Texts and characters -/

/-- A text: the content of a JS string, as a list of characters. -/
abbrev Text := List Char

/-- The double quote character. -/
def dquote : Char := Char.ofNat 34

/-- The backslash character. -/
def backslash : Char := Char.ofNat 92

/-- The opening brace. -/
def lbrace : Char := Char.ofNat 123

/-- The closing brace. -/
def rbrace : Char := Char.ofNat 125

/-! ## JavaScript values -/

/-- JavaScript values, as far as `JSON.parse` can produce them, plus `undefined`.
A number `num mant scale` denotes the exact decimal `mant / 10 ^ scale`; the
reader produces it normalised (`scale = 0`, or `mant` not a multiple of ten),
so an integer `n` is always `num n 0`. -/
inductive JVal where
  | undefined : JVal
  | null : JVal
  | bool (b : Bool) : JVal
  | num (mant : Int) (scale : Nat) : JVal
  | str (s : Text) : JVal
  | arr (items : List JVal) : JVal
  | obj (members : List (Text × JVal)) : JVal

namespace JVal

instance : Inhabited JVal := ⟨JVal.undefined⟩

/-- JS truthiness (`ToBoolean`): `undefined`, `null`, `false`, zero and the empty
string are falsy, everything else is truthy. -/
def truthy : JVal → Bool
  | undefined => false
  | null => false
  | bool b => b
  | num m _ => decide (m ≠ 0)
  | str s => !s.isEmpty
  | arr _ => true
  | obj _ => true

/-- The strict equality `a === b` on primitive values.  Arrays and objects are
compared by reference in JS; two values read out of different places are never
the same reference, so the comparison is `false` for them. -/
def strictEq : JVal → JVal → Bool
  | undefined, undefined => true
  | null, null => true
  | bool a, bool b => a == b
  | num m s, num m2 s2 => m == m2 && s == s2
  | str a, str b => a == b
  | _, _ => false

end JVal

/-- Own-property update of an object under construction: an existing key keeps
its position and takes the new value, a new key is appended.  (JS enumerates
integer-like keys first; that reordering is not modelled.  The program reads
properties by name only.) -/
def setMember : List (Text × JVal) → Text → JVal → List (Text × JVal)
  | [], k, v => [(k, v)]
  | (k1, v1) :: rest, k, v =>
    if k1 = k then (k1, v) :: rest else (k1, v1) :: setMember rest k v

/-- Own-property lookup in a member list; absent keys read as `undefined`. -/
def lookupMember : List (Text × JVal) → Text → JVal
  | [], _ => JVal.undefined
  | (k1, v1) :: rest, k => if k1 = k then v1 else lookupMember rest k

/-- Property read `v.k` for the five data keys used by the program.  Reading a
property of `null` or `undefined` throws a `TypeError` (`none`); numbers,
booleans, strings and arrays have no such property (`undefined`). -/
def getProp (v : JVal) (k : Text) : Option JVal :=
  match v with
  | JVal.undefined => none
  | JVal.null => none
  | JVal.obj ms => some (lookupMember ms k)
  | _ => some JVal.undefined

/-! ## `JSON.stringify` -/

/-- Decimal digits of a natural number. -/
def natRepr (n : Nat) : Text := Nat.toDigits 10 n

/-- Decimal image of an integer. -/
def intRepr : Int → Text
  | Int.ofNat n => natRepr n
  | Int.negSucc n => '-' :: natRepr (n + 1)

/-- Left padding with zeros up to width `k`. -/
def padZeros (k : Nat) (ds : Text) : Text := List.replicate (k - ds.length) '0' ++ ds

/-- Image of the number `mant / 10 ^ scale`. -/
def numRepr (mant : Int) (scale : Nat) : Text :=
  if scale = 0 then intRepr mant
  else
    (if mant < 0 then ['-'] else []) ++ natRepr (mant.natAbs / 10 ^ scale) ++
      '.' :: padZeros scale (natRepr (mant.natAbs % 10 ^ scale))

/-- The escape of one character inside a JSON string (`QuoteJSONString`). -/
def quoteChar (c : Char) : Text :=
  if c = dquote then [backslash, dquote]
  else if c = backslash then [backslash, backslash]
  else if c = Char.ofNat 8 then [backslash, 'b']
  else if c = Char.ofNat 12 then [backslash, 'f']
  else if c = Char.ofNat 10 then [backslash, 'n']
  else if c = Char.ofNat 13 then [backslash, 'r']
  else if c = Char.ofNat 9 then [backslash, 't']
  else if c.toNat < 32 then
    [backslash, 'u', '0', '0', Nat.digitChar (c.toNat / 16), Nat.digitChar (c.toNat % 16)]
  else [c]

/-- The escaped content of a string, without the surrounding quotes. -/
def quoteBody : Text → Text
  | [] => []
  | c :: cs => quoteChar c ++ quoteBody cs

/-- A quoted JSON string. -/
def quote (s : Text) : Text := dquote :: (quoteBody s ++ [dquote])

mutual
/-- Serialisation of a value in element or member position (`SerializeJSONProperty`):
`undefined` inside an array is written `null`. -/
def JVal.stringify : JVal → Text
  | JVal.undefined => ['n', 'u', 'l', 'l']
  | JVal.null => ['n', 'u', 'l', 'l']
  | JVal.bool true => ['t', 'r', 'u', 'e']
  | JVal.bool false => ['f', 'a', 'l', 's', 'e']
  | JVal.num m s => numRepr m s
  | JVal.str s => quote s
  | JVal.arr l => '[' :: (stringifyElems true l ++ [']'])
  | JVal.obj l => lbrace :: (stringifyMembers true l ++ [rbrace])
/-- The elements of an array, separated by commas. -/
def stringifyElems : Bool → List JVal → Text
  | _, [] => []
  | first, v :: rest =>
    (if first then [] else [',']) ++ (v.stringify ++ stringifyElems false rest)
/-- The members of an object, separated by commas; a member whose value is
`undefined` is left out. -/
def stringifyMembers : Bool → List (Text × JVal) → Text
  | _, [] => []
  | first, (k, v) :: rest =>
    match v with
    | JVal.undefined => stringifyMembers first rest
    | w =>
      (if first then [] else [',']) ++
        (quote k ++ (':' :: (w.stringify ++ stringifyMembers false rest)))
end

/-- `JSON.stringify(v)`: `undefined` at top level gives `undefined` (`none`). -/
def jsonStringify : JVal → Option Text
  | JVal.undefined => none
  | v => some v.stringify

/-! ## `JSON.parse` -/

/-- JSON white space. -/
def isWs (c : Char) : Bool :=
  c = ' ' || c = Char.ofNat 9 || c = Char.ofNat 10 || c = Char.ofNat 13

/-- Skips leading white space. -/
def skipWs : Text → Text
  | [] => []
  | c :: cs => if isWs c then skipWs cs else c :: cs

/-- Decimal digit test. -/
def isDigit (c : Char) : Bool := decide (48 ≤ c.toNat) && decide (c.toNat ≤ 57)

/-- Value of a hexadecimal digit. -/
def hexVal (c : Char) : Option Nat :=
  if 48 ≤ c.toNat ∧ c.toNat ≤ 57 then some (c.toNat - 48)
  else if 97 ≤ c.toNat ∧ c.toNat ≤ 102 then some (c.toNat - 87)
  else if 65 ≤ c.toNat ∧ c.toNat ≤ 70 then some (c.toNat - 55)
  else none

/-- Value of four hexadecimal digits. -/
def hex4 (a b c d : Char) : Option Nat :=
  match hexVal a, hexVal b, hexVal c, hexVal d with
  | some x, some y, some z, some w => some (((x * 16 + y) * 16 + z) * 16 + w)
  | _, _, _, _ => none

/-- The character named by a `\uXXXX` escape.  A surrogate code unit has no
counterpart among the characters of the model and is read as U+FFFD. -/
def unitChar (n : Nat) : Char :=
  if 0xD800 ≤ n ∧ n ≤ 0xDFFF then Char.ofNat 0xFFFD else Char.ofNat n

/-- The character named by a single-letter escape. -/
def unescape (e : Char) : Option Char :=
  if e = dquote then some dquote
  else if e = backslash then some backslash
  else if e = '/' then some '/'
  else if e = 'b' then some (Char.ofNat 8)
  else if e = 'f' then some (Char.ofNat 12)
  else if e = 'n' then some (Char.ofNat 10)
  else if e = 'r' then some (Char.ofNat 13)
  else if e = 't' then some (Char.ofNat 9)
  else none

/-- Prepends a character to the content of a partial string result. -/
def consChar (c : Char) : Option (Text × Text) → Option (Text × Text)
  | some (s, r) => some (c :: s, r)
  | none => none

/-- Reads a string after its opening quote: the content and the text after the
closing quote.  Control characters below U+0020 must be escaped. -/
def parseStringBody : Text → Option (Text × Text)
  | [] => none
  | c :: cs =>
    if c = dquote then some ([], cs)
    else if c = backslash then
      match cs with
      | [] => none
      | e :: cs1 =>
        if e = 'u' then
          match cs1 with
          | a :: b :: c2 :: d :: cs2 =>
            match hex4 a b c2 d with
            | some n => consChar (unitChar n) (parseStringBody cs2)
            | none => none
          | _ => none
        else
          match unescape e with
          | some ch => consChar ch (parseStringBody cs1)
          | none => none
    else if c.toNat < 32 then none
    else consChar c (parseStringBody cs)

/-- Splits off the leading decimal digits. -/
def spanDigits : Text → Text × Text
  | [] => ([], [])
  | c :: cs =>
    if isDigit c then ((c :: (spanDigits cs).1), (spanDigits cs).2) else ([], c :: cs)

/-- Value of a digit string, most significant digit first. -/
def digitsVal (ds : Text) : Nat := ds.foldl (fun acc c => acc * 10 + (c.toNat - 48)) 0

/-- Removes trailing zeros of the mantissa while the scale is positive. -/
def stripZeros : Nat → Nat → Nat × Nat
  | 0, m => (m, 0)
  | s + 1, m => if m % 10 = 0 then stripZeros s (m / 10) else (m, s + 1)

/-- The number `mantAbs * 10 ^ (exp - scale0)`, signed and normalised. -/
def mkNum (neg : Bool) (mantAbs scale0 : Nat) (exp : Int) : JVal :=
  let sign : Int := if neg then -1 else 1
  if (scale0 : Int) ≤ exp then JVal.num (sign * (mantAbs * 10 ^ (exp - scale0).toNat : Nat)) 0
  else
    let r := stripZeros ((scale0 : Int) - exp).toNat mantAbs
    JVal.num (sign * (r.1 : Nat)) r.2

/-- The integer part of a number: a single `0`, or digits not starting with `0`. -/
def parseIntPart : Text → Option (Text × Text)
  | [] => none
  | c :: cs =>
    if c = '0' then some (['0'], cs)
    else if isDigit c then some (spanDigits (c :: cs))
    else none

/-- The optional fraction: its digits (possibly none) and the rest. -/
def parseFrac : Text → Option (Text × Text)
  | [] => some ([], [])
  | c :: cs =>
    if c = '.' then
      if (spanDigits cs).1 = [] then none else some (spanDigits cs)
    else some ([], c :: cs)

/-- The digits of an exponent after its sign. -/
def parseExpDigits (neg : Bool) (s : Text) : Option (Int × Text) :=
  let r := spanDigits s
  if r.1 = [] then none
  else some ((if neg then -(digitsVal r.1 : Int) else (digitsVal r.1 : Int)), r.2)

/-- The optional exponent: its value (zero when absent) and the rest. -/
def parseExp : Text → Option (Int × Text)
  | [] => some (0, [])
  | c :: cs =>
    if c = 'e' ∨ c = 'E' then
      match cs with
      | [] => none
      | g :: r =>
        if g = '+' then parseExpDigits false r
        else if g = '-' then parseExpDigits true r
        else parseExpDigits false (g :: r)
    else some (0, c :: cs)

/-- The part of a number after its sign. -/
def parseUnsigned (neg : Bool) (s : Text) : Option (JVal × Text) :=
  match parseIntPart s with
  | none => none
  | some (ip, s1) =>
    match parseFrac s1 with
    | none => none
    | some (fp, s2) =>
      match parseExp s2 with
      | none => none
      | some (e, s3) => some (mkNum neg (digitsVal (ip ++ fp)) fp.length e, s3)

/-- Reads a JSON number. -/
def parseNumber : Text → Option (JVal × Text)
  | [] => none
  | c :: cs => if c = '-' then parseUnsigned true cs else parseUnsigned false (c :: cs)

/-- Reads one of the literals `true`, `false`, `null`. -/
def parseLiteral : Text → Option (JVal × Text)
  | 't' :: 'r' :: 'u' :: 'e' :: r => some (JVal.bool true, r)
  | 'f' :: 'a' :: 'l' :: 's' :: 'e' :: r => some (JVal.bool false, r)
  | 'n' :: 'u' :: 'l' :: 'l' :: r => some (JVal.null, r)
  | _ => none

/-- What the reader is in the middle of. -/
inductive PMode where
  | value : PMode
  | elems (acc : List JVal) : PMode
  | member (acc : List (Text × JVal)) : PMode
  | members (acc : List (Text × JVal)) : PMode

/-- Recursive-descent reader of the JSON grammar.  `value` reads a value;
`elems acc` continues an array after an element; `member acc` reads a
`key : value` pair; `members acc` continues an object after a pair.  The first
argument bounds the recursion depth. -/
def parseJ : Nat → PMode → Text → Option (JVal × Text)
  | 0, _, _ => none
  | fuel + 1, PMode.value, s =>
    match skipWs s with
    | [] => none
    | c :: cs =>
      if c = lbrace then
        match skipWs cs with
        | [] => none
        | c1 :: cs1 =>
          if c1 = rbrace then some (JVal.obj [], cs1)
          else parseJ fuel (PMode.member []) (c1 :: cs1)
      else if c = '[' then
        match skipWs cs with
        | [] => none
        | c1 :: cs1 =>
          if c1 = ']' then some (JVal.arr [], cs1)
          else
            match parseJ fuel PMode.value (c1 :: cs1) with
            | some (v, r) => parseJ fuel (PMode.elems [v]) r
            | none => none
      else if c = dquote then
        match parseStringBody cs with
        | some (t, r) => some (JVal.str t, r)
        | none => none
      else if c = '-' ∨ isDigit c = true then parseNumber (c :: cs)
      else parseLiteral (c :: cs)
  | fuel + 1, PMode.elems acc, s =>
    match skipWs s with
    | [] => none
    | c :: cs =>
      if c = ',' then
        match parseJ fuel PMode.value cs with
        | some (v, r) => parseJ fuel (PMode.elems (acc ++ [v])) r
        | none => none
      else if c = ']' then some (JVal.arr acc, cs)
      else none
  | fuel + 1, PMode.member acc, s =>
    match skipWs s with
    | [] => none
    | c :: cs =>
      if c = dquote then
        match parseStringBody cs with
        | none => none
        | some (k, r) =>
          match skipWs r with
          | [] => none
          | c2 :: r2 =>
            if c2 = ':' then
              match parseJ fuel PMode.value r2 with
              | some (v, r3) => parseJ fuel (PMode.members (setMember acc k v)) r3
              | none => none
            else none
      else none
  | fuel + 1, PMode.members acc, s =>
    match skipWs s with
    | [] => none
    | c :: cs =>
      if c = ',' then parseJ fuel (PMode.member acc) cs
      else if c = rbrace then some (JVal.obj acc, cs)
      else none

/-- `JSON.parse(text)`: the value, or `none` for a `SyntaxError`.  The whole
text must be one value surrounded by optional white space. -/
def jsonParse (s : Text) : Option JVal :=
  match parseJ (s.length + 1) PMode.value s with
  | some (v, r) => if skipWs r = [] then some v else none
  | none => none

/-! ## The `Todo` class -/

/-- The key `id`. -/
def keyId : Text := ['i', 'd']

/-- The key `title`. -/
def keyTitle : Text := ['t', 'i', 't', 'l', 'e']

/-- The key `description`. -/
def keyDescription : Text := ['d', 'e', 's', 'c', 'r', 'i', 'p', 't', 'i', 'o', 'n']

/-- The key `completed`. -/
def keyCompleted : Text := ['c', 'o', 'm', 'p', 'l', 'e', 't', 'e', 'd']

/-- The key `order`. -/
def keyOrder : Text := ['o', 'r', 'd', 'e', 'r']

/-- The fields of a `Todo` instance.  JS is untyped: each slot holds any value. -/
structure Todo where
  id : JVal
  title : JVal
  description : JVal
  completed : JVal
  order : JVal

/-- A parameter with a default value: an `undefined` argument takes the default. -/
def orDefault (v d : JVal) : JVal :=
  match v with
  | JVal.undefined => d
  | w => w

/-- The constructor
`constructor(id, title, description = "", completed = false, order = 0)`. -/
def Todo.new (id title description completed order : JVal) : Todo :=
  { id := id
    title := title
    description := orDefault description (JVal.str [])
    completed := orDefault completed (JVal.bool false)
    order := orDefault order (JVal.num 0 0) }

/-- The method `toJSON()`: a plain object with the five fields. -/
def Todo.toJSON (t : Todo) : JVal :=
  JVal.obj [(keyId, t.id), (keyTitle, t.title), (keyDescription, t.description),
    (keyCompleted, t.completed), (keyOrder, t.order)]

/-! ## `StorageManager` over `localStorage` -/

/-- The two keys of `localStorage` the program uses; `none` is an absent key
(`getItem` returns `null`). -/
structure LocalStorage where
  colorful_todos : Option Text
  colorful_theme : Option Text

/-- The errors a JS expression of the program can throw. -/
inductive JsError where
  | syntaxError : JsError
  | typeError : JsError

/-- The callback `(obj) => new Todo(obj.id, obj.title, obj.description,
obj.completed, obj.order)`; a property read on `null` throws. -/
def hydrate (o : JVal) : Except JsError Todo :=
  match getProp o keyId, getProp o keyTitle, getProp o keyDescription,
      getProp o keyCompleted, getProp o keyOrder with
  | some i, some t, some d, some c, some r => Except.ok (Todo.new i t d c r)
  | _, _, _, _, _ => Except.error JsError.typeError

/-- The call `data.map(callback)` on an array: the callback runs on the elements
in turn and the first exception ends the call. -/
def hydrateAll : List JVal → Except JsError (List Todo)
  | [] => Except.ok []
  | o :: rest =>
    match hydrate o with
    | Except.error e => Except.error e
    | Except.ok t =>
      match hydrateAll rest with
      | Except.error e => Except.error e
      | Except.ok ts => Except.ok (t :: ts)

namespace StorageManager

/-- The body of the `try` block of `loadTodos`: `JSON.parse(raw)` may throw a
`SyntaxError`; `data.map` is a function only when `data` is an array, calling
it on anything else throws a `TypeError`. -/
def loadTodosTry (raw : Text) : Except JsError (List Todo) :=
  match jsonParse raw with
  | none => Except.error JsError.syntaxError
  | some (JVal.arr items) => hydrateAll items
  | some _ => Except.error JsError.typeError

/-- The method `StorageManager.loadTodos()`: an absent key or an empty text is
falsy and gives `[]`; the `catch` block turns every exception of the `try`
block into `[]`. -/
def loadTodos (ls : LocalStorage) : Except JsError (List Todo) :=
  match ls.colorful_todos with
  | none => Except.ok []
  | some raw =>
    if raw = [] then Except.ok []
    else
      match loadTodosTry raw with
      | Except.ok ts => Except.ok ts
      | Except.error _ => Except.ok []

/-- The method `StorageManager.saveTodos(todos)`; `setItem` stores the text of
its argument. -/
def saveTodos (ls : LocalStorage) (todos : List Todo) : LocalStorage :=
  match jsonStringify (JVal.arr (todos.map Todo.toJSON)) with
  | some payload => { ls with colorful_todos := some payload }
  | none => { ls with colorful_todos := some ['u', 'n', 'd', 'e', 'f', 'i', 'n', 'e', 'd'] }

/-- The text `light`. -/
def light : Text := ['l', 'i', 'g', 'h', 't']

/-- The text `dark`. -/
def dark : Text := ['d', 'a', 'r', 'k']

/-- The method `StorageManager.loadTheme()`:
`localStorage.getItem("colorful_theme") || "light"`. -/
def loadTheme (ls : LocalStorage) : Text :=
  match ls.colorful_theme with
  | none => light
  | some t => if t = [] then light else t

/-- The method `StorageManager.saveTheme(theme)`. -/
def saveTheme (ls : LocalStorage) (theme : Text) : LocalStorage :=
  { ls with colorful_theme := some theme }

end StorageManager

/-! ## Well-formed items -/

/-- The value is an integer number. -/
def JVal.isInt : JVal → Bool
  | JVal.num _ 0 => true
  | _ => false

/-- The value is a string. -/
def JVal.isStr : JVal → Bool
  | JVal.str _ => true
  | _ => false

/-- The value is a boolean. -/
def JVal.isBool : JVal → Bool
  | JVal.bool _ => true
  | _ => false

/-- A well-formed item of the data model: `id` an integer or a string, `title`
and `description` strings, `completed` a boolean, `order` an integer. -/
def Todo.wellFormed (t : Todo) : Bool :=
  (t.id.isInt || t.id.isStr) && t.title.isStr && t.description.isStr &&
    t.completed.isBool && t.order.isInt

/-! ## The application state

`state` holds references to `Todo` instances; the closures of a rendered `<li>`
capture the very instance they were rendered from.  Instances therefore live in
a heap (a list indexed by address), `state.todos` is a list of addresses and an
`<li>` remembers the address of its instance. -/

instance : Inhabited Todo :=
  ⟨⟨JVal.undefined, JVal.undefined, JVal.undefined, JVal.undefined, JVal.undefined⟩⟩

/-- The instance at an address of the heap. -/
def readTodo (heap : List Todo) (a : Nat) : Todo := heap.getD a default

/-- A rendered `<li class="todo-item">`: the address of the instance captured by
its event listeners, and the state of its checkbox. -/
structure Li where
  todo : Nat
  checked : Bool
deriving DecidableEq

/-- The global `state` object, the heap of `Todo` instances, `localStorage`, and
the children of the element `#todo-list` (`none` when the page has no such
element). -/
structure State where
  heap : List Todo
  todos : List Nat
  filter : Text
  theme : Text
  storage : LocalStorage
  listEl : Option (List Li)

/-- The field values of the items of `state.todos`, in array order. -/
def State.items (s : State) : List Todo := s.todos.map (readTodo s.heap)

/-- The addresses of the instances shown by the list element, in display order. -/
def State.shown (s : State) : List Nat :=
  match s.listEl with
  | none => []
  | some lis => lis.map Li.todo

/-- The text `all`. -/
def filterAll : Text := ['a', 'l', 'l']

/-- The text `active`. -/
def filterActive : Text := ['a', 'c', 't', 'i', 'v', 'e']

/-- The text `completed`. -/
def filterCompleted : Text := ['c', 'o', 'm', 'p', 'l', 'e', 't', 'e', 'd']

/-- `ToNumber` on the values an `order` field is compared through: `undefined`
is `NaN` (`none`), `null` is `0`, booleans are `0` and `1`.  The conversions of
strings, arrays and objects are outside the model and are taken as `NaN`. -/
def toNumber : JVal → Option (Int × Nat)
  | JVal.undefined => none
  | JVal.null => some (0, 0)
  | JVal.bool b => some ((if b then 1 else 0), 0)
  | JVal.num m s => some (m, s)
  | JVal.str _ => none
  | JVal.arr _ => none
  | JVal.obj _ => none

/-- The comparator `(a, b) => a.order - b.order` does not ask for `b` before
`a`: the difference is not positive (a `NaN` difference counts as zero). -/
def orderLe (x y : JVal) : Bool :=
  match toNumber x, toNumber y with
  | some (m1, s1), some (m2, s2) => decide (m1 * 10 ^ s2 ≤ m2 * 10 ^ s1)
  | _, _ => true

/-- The call `arr.sort((a, b) => a.order - b.order)` on an array of instances:
`Array.prototype.sort` is a stable sort. -/
def sortByOrder (heap : List Todo) (l : List Nat) : List Nat :=
  l.insertionSort (fun a b => orderLe (readTodo heap a).order (readTodo heap b).order = true)

/-- The filter callback of `renderTodos`. -/
def passesFilter (filter : Text) (todo : Todo) : Bool :=
  if filter = filterActive then !todo.completed.truthy
  else if filter = filterCompleted then todo.completed.truthy
  else true

/-- The function `renderTodoItem(todo)`: nothing is appended when the item is
hidden by the current filter or when the list element does not exist. -/
def renderTodoItem (s : State) (a : Nat) : State :=
  let todo := readTodo s.heap a
  if s.filter = filterActive ∧ todo.completed.truthy = true then s
  else if s.filter = filterCompleted ∧ todo.completed.truthy = false then s
  else
    match s.listEl with
    | none => s
    | some lis =>
      { s with listEl := some (lis ++ [{ todo := a, checked := todo.completed.truthy }]) }

/-- The function `renderTodos()`: empties the list element, filters a copy of
`state.todos`, sorts the copy and renders each of its items. -/
def renderTodos (s : State) : State :=
  match s.listEl with
  | none => s
  | some _ =>
    let filtered := s.todos.filter (fun a => passesFilter s.filter (readTodo s.heap a))
    (sortByOrder s.heap filtered).foldl renderTodoItem { s with listEl := some [] }

/-- White space and line terminators removed by `String.prototype.trim`. -/
def isJsSpace (c : Char) : Bool :=
  let n := c.toNat
  (9 ≤ n && n ≤ 13) || n = 32 || n = 160 || n = 0x1680 || (0x2000 ≤ n && n ≤ 0x200A) ||
    n = 0x2028 || n = 0x2029 || n = 0x202F || n = 0x205F || n = 0x3000 || n = 0xFEFF

/-- The method `String.prototype.trim`. -/
def trim (s : Text) : Text :=
  ((s.dropWhile isJsSpace).reverse.dropWhile isJsSpace).reverse

/-- Writes `state.todos` to storage: `StorageManager.saveTodos(state.todos)`. -/
def State.save (s : State) : State :=
  { s with storage := StorageManager.saveTodos s.storage s.items }

/-- The `submit` listener of the form `#new-todo-form`; `titleValue` and
`descValue` are the values of the two inputs and `now` is `Date.now()`. -/
def submitHandler (s : State) (titleValue descValue : Text) (now : Int) : State :=
  let title := trim titleValue
  let description := trim descValue
  if title = [] then s
  else
    let a := s.heap.length
    let newTodo := Todo.new (JVal.num now 0) (JVal.str title) (JVal.str description)
      (JVal.bool false) (JVal.num (s.todos.length : Int) 0)
    let heap1 := s.heap ++ [newTodo]
    let pushed := s.todos ++ [a]
    let s1 : State := { s with heap := heap1, todos := sortByOrder heap1 pushed }
    renderTodoItem s1.save a

/-- The assignment `todo.completed = v`. -/
def Todo.setCompleted (todo : Todo) (v : JVal) : Todo := { todo with completed := v }

/-- The `change` listener of the checkbox of an `<li>`:
`todo.completed = checkbox.checked`, save, render again. -/
def changeHandler (s : State) (li : Li) (checked : Bool) : State :=
  let todo := readTodo s.heap li.todo
  let s1 : State :=
    { s with heap := s.heap.set li.todo (todo.setCompleted (JVal.bool checked)) }
  renderTodos s1.save

/-- The user flips the checkbox of the `i`-th displayed item; the `change`
listener then runs with the new state of the checkbox. -/
def toggleClick (s : State) (i : Nat) : State :=
  match s.listEl with
  | none => s
  | some lis =>
    match lis.get? i with
    | none => s
    | some li => changeHandler s li (!li.checked)

/-- The `click` listener of the delete button of the `i`-th `<li>`:
`state.todos.filter((t) => t.id !== todo.id)`, save, `li.remove()`. -/
def deleteHandler (s : State) (i : Nat) (li : Li) : State :=
  let id := (readTodo s.heap li.todo).id
  let s1 : State :=
    { s with todos := s.todos.filter (fun t => !(JVal.strictEq (readTodo s.heap t).id id)) }
  let s2 := s1.save
  { s2 with listEl := s2.listEl.map (fun lis => lis.eraseIdx i) }

/-- The user clicks the delete button of the `i`-th displayed item. -/
def deleteClick (s : State) (i : Nat) : State :=
  match s.listEl with
  | none => s
  | some lis =>
    match lis.get? i with
    | none => s
    | some li => deleteHandler s i li

/-- The `click` listener of the container `.filters`; `hasClass` tells whether
the clicked element has the class `filter` and `dataFilter` is its
`dataset.filter` (`none` when the attribute is missing). -/
def filterClickHandler (s : State) (hasClass : Bool) (dataFilter : Option Text) : State :=
  if hasClass = false then s
  else
    match dataFilter with
    | none => s
    | some newFilter =>
      if newFilter = [] then s
      else renderTodos { s with filter := newFilter }

/-- The `click` listener of the button `#dark-mode-toggle`. -/
def themeClickHandler (s : State) : State :=
  let theme := if s.theme = StorageManager.light then StorageManager.dark else StorageManager.light
  { s with theme := theme, storage := StorageManager.saveTheme s.storage theme }

/-- The `click` listener of the button `#clear-completed`. -/
def clearCompletedHandler (s : State) : State :=
  let s1 : State :=
    { s with todos := s.todos.filter (fun t => !(readTodo s.heap t).completed.truthy) }
  renderTodos s1.save

/-- The function `init()` on a fresh page: loads the items (each a new
instance) and the theme, then renders.  `hasList` tells whether the page has
the element `#todo-list`. -/
def init (ls : LocalStorage) (hasList : Bool) : Except JsError State :=
  match StorageManager.loadTodos ls with
  | Except.error e => Except.error e
  | Except.ok loaded =>
    Except.ok (renderTodos
      { heap := loaded
        todos := List.range loaded.length
        filter := filterAll
        theme := StorageManager.loadTheme ls
        storage := ls
        listEl := if hasList then some [] else none })

/-- The user events of the page. -/
inductive Event where
  | submit (titleValue descValue : Text) (now : Int) : Event
  | toggle (i : Nat) : Event
  | delete (i : Nat) : Event
  | filterClick (hasClass : Bool) (dataFilter : Option Text) : Event
  | themeClick : Event
  | clearCompleted : Event

/-- One event handled to completion. -/
def step (s : State) : Event → State
  | Event.submit t d now => submitHandler s t d now
  | Event.toggle i => toggleClick s i
  | Event.delete i => deleteClick s i
  | Event.filterClick c f => filterClickHandler s c f
  | Event.themeClick => themeClickHandler s
  | Event.clearCompleted => clearCompletedHandler s

/-- A sequence of events, handled one after the other. -/
def run (s : State) (es : List Event) : State := es.foldl step s

/-- The state of a fresh page whose storage is empty and which has the list
element. -/
def emptyPage : State :=
  { heap := []
    todos := []
    filter := filterAll
    theme := StorageManager.light
    storage := { colorful_todos := none, colorful_theme := none }
    listEl := some [] }

/-- The integer an integer-valued number stands for (zero for other values). -/
def JVal.toInt : JVal → Int
  | JVal.num m _ => m
  | _ => 0

/-- The content of a string value (empty for other values). -/
def JVal.asText : JVal → Text
  | JVal.str s => s
  | _ => []

/-! ## Concrete inputs used in the examples -/

/-- The stored text `[1,2]`. -/
def blobNumbers : Text := ['[', '1', ',', '2', ']']

/-- The stored text `[{}]`. -/
def blobEmptyObject : Text := ['[', lbrace, rbrace, ']']

/-- The stored text `not json`. -/
def blobNotJson : Text := ['n', 'o', 't', ' ', 'j', 's', 'o', 'n']

/-- The stored text `{}`. -/
def blobBraces : Text := [lbrace, rbrace]

/-- The stored text `null`. -/
def blobNull : Text := ['n', 'u', 'l', 'l']

/-- The stored text `[null]`. -/
def blobNullElement : Text := ['[', 'n', 'u', 'l', 'l', ']']

/-- The text `blue`, a theme value that is neither `light` nor `dark`. -/
def blue : Text := ['b', 'l', 'u', 'e']

/-- The text `bogus`, a filter value that is none of `all`, `active`, `completed`. -/
def bogus : Text := ['b', 'o', 'g', 'u', 's']

/-- The instance every element of `[1,2]` and of `[{}]` is turned into: `id` and
`title` are `undefined`, the other fields take the constructor defaults. -/
def blankTodo : Todo :=
  Todo.new JVal.undefined JVal.undefined JVal.undefined JVal.undefined JVal.undefined

/-- A well-formed item: `Buy milk`, not completed, first in order. -/
def todoMilk : Todo :=
  { id := JVal.num 1700000000000 0
    title := JVal.str ['B', 'u', 'y', ' ', 'm', 'i', 'l', 'k']
    description := JVal.str []
    completed := JVal.bool false
    order := JVal.num 0 0 }

/-- A well-formed item: `Walk dog`, completed, second in order, with a string id. -/
def todoDog : Todo :=
  { id := JVal.str ['d', 'o', 'g']
    title := JVal.str ['W', 'a', 'l', 'k', ' ', 'd', 'o', 'g']
    description := JVal.str ['2', 'p', 'm']
    completed := JVal.bool true
    order := JVal.num 1 0 }

/-- A state holding the two example items, displayed under the filter `all`. -/
def demoState : State :=
  { heap := [todoMilk, todoDog]
    todos := [0, 1]
    filter := filterAll
    theme := StorageManager.light
    storage := { colorful_todos := none, colorful_theme := none }
    listEl := some [⟨0, false⟩, ⟨1, true⟩] }

/-- An add request: the values of the two inputs of the form and the reading of
the clock when the form is submitted. -/
structure AddInput where
  titleValue : Text
  descValue : Text
  now : Int

/-- The `submit` event of an add request. -/
def AddInput.event (x : AddInput) : Event := Event.submit x.titleValue x.descValue x.now

/-- The instance `new Todo(Date.now(), title, description, false, k)` that the
submit listener creates when `state.todos` holds `k` items. -/
def AddInput.item (k : Nat) (x : AddInput) : Todo :=
  Todo.new (JVal.num x.now 0) (JVal.str (trim x.titleValue)) (JVal.str (trim x.descValue))
    (JVal.bool false) (JVal.num (k : Int) 0)

/-- Two add requests with different titles. -/
def demoAdds : List AddInput :=
  [⟨['B', 'u', 'y', ' ', 'm', 'i', 'l', 'k'], [], 1700000000000⟩,
   ⟨[' ', 'W', 'a', 'l', 'k', ' ', 'd', 'o', 'g', ' '], ['2', 'p', 'm'], 1700000000500⟩]

/-- Two items `A` and `B` added while `Date.now()` reads the same millisecond
`1000`. -/
def sameClockState : State :=
  run emptyPage [Event.submit ['A'] [] 1000, Event.submit ['B'] [] 1000]

/-- Items `A`, `B`, `C` added at different times, then `A` and `B` deleted: the
only item left, `C`, has `order = 2`. -/
def gapState : State :=
  run emptyPage [Event.submit ['A'] [] 1, Event.submit ['B'] [] 2, Event.submit ['C'] [] 3,
    Event.delete 0, Event.delete 0]

/-- The titles of the displayed items, in display order. -/
def State.shownTitles (s : State) : List Text :=
  s.shown.map (fun a => (readTodo s.heap a).title.asText)

/-- The page is consistent: every address in `state.todos` and in the displayed
elements is that of an existing instance, and every checkbox shows the
`completed` flag of its instance. -/
def State.consistent (s : State) : Prop :=
  (∀ a ∈ s.todos, a < s.heap.length) ∧
  ∀ lis, s.listEl = some lis → ∀ li ∈ lis,
    li.todo < s.heap.length ∧ li.checked = (readTodo s.heap li.todo).completed.truthy

/-! # Theorems -/

/-! ## Strings: reading back a quoted string -/

theorem hex4_digitChar : ∀ n, n < 32 →
    hex4 '0' '0' (Nat.digitChar (n / 16)) (Nat.digitChar (n % 16)) = some n := by
  decide

theorem unitChar_toNat (c : Char) (h : c.toNat < 32) : unitChar c.toNat = c := by
  unfold unitChar
  rw [if_neg (by omega)]
  exact Char.ofNat_toNat c

theorem parseStringBody_quoteChar (c : Char) (X : Text) :
    parseStringBody (quoteChar c ++ X) = consChar c (parseStringBody X) := by
  have hb : backslash ≠ dquote := by decide
  unfold quoteChar
  split_ifs with h1 h2 h3 h4 h5 h6 h7 h8
  · subst h1
    rw [List.cons_append, List.cons_append, List.nil_append, parseStringBody.eq_def]
    simp only [hb, show dquote ≠ 'u' by decide, if_false, if_true]
    rfl
  · subst h2
    rw [List.cons_append, List.cons_append, List.nil_append, parseStringBody.eq_def]
    simp only [hb, show backslash ≠ 'u' by decide, if_false, if_true]
    rfl
  · subst h3
    rw [List.cons_append, List.cons_append, List.nil_append, parseStringBody.eq_def]
    simp only [hb, show ('b' : Char) ≠ 'u' by decide, if_false, if_true]
    rfl
  · subst h4
    rw [List.cons_append, List.cons_append, List.nil_append, parseStringBody.eq_def]
    simp only [hb, show ('f' : Char) ≠ 'u' by decide, if_false, if_true]
    rfl
  · subst h5
    rw [List.cons_append, List.cons_append, List.nil_append, parseStringBody.eq_def]
    simp only [hb, show ('n' : Char) ≠ 'u' by decide, if_false, if_true]
    rfl
  · subst h6
    rw [List.cons_append, List.cons_append, List.nil_append, parseStringBody.eq_def]
    simp only [hb, show ('r' : Char) ≠ 'u' by decide, if_false, if_true]
    rfl
  · subst h7
    rw [List.cons_append, List.cons_append, List.nil_append, parseStringBody.eq_def]
    simp only [hb, show ('t' : Char) ≠ 'u' by decide, if_false, if_true]
    rfl
  · simp only [List.cons_append, List.nil_append]
    rw [parseStringBody.eq_def]
    simp only [hb, if_false, if_true, hex4_digitChar c.toNat h8, unitChar_toNat c h8]
  · simp only [List.cons_append, List.nil_append]
    rw [parseStringBody.eq_def]
    simp only [h1, h2, h8, if_false]

theorem parseStringBody_quoteBody (s : Text) (X : Text) :
    parseStringBody (quoteBody s ++ dquote :: X) = some (s, X) := by
  induction s with
  | nil =>
    rw [quoteBody, List.nil_append, parseStringBody.eq_def]
    simp
  | cons c cs ih =>
    rw [quoteBody, List.append_assoc, parseStringBody_quoteChar, ih]
    rfl

/-! ## Numbers: reading back the decimal image of an integer -/

theorem digitChar_facts : ∀ n, n < 10 →
    isDigit (Nat.digitChar n) = true ∧ (Nat.digitChar n).toNat - 48 = n ∧
      (n ≠ 0 → Nat.digitChar n ≠ '0') ∧ Nat.digitChar n ≠ '-' := by
  decide

theorem digitsVal_append_singleton (ds : Text) (d : Char) :
    digitsVal (ds ++ [d]) = digitsVal ds * 10 + (d.toNat - 48) := by
  simp [digitsVal, List.foldl_append]

/-- The digits produced by `Nat.toDigitsCore` in base ten with enough fuel. -/
theorem toDigitsCore_spec (f : Nat) : ∀ (n : Nat) (acc : Text), n < f →
    ∃ ds : Text, Nat.toDigitsCore 10 f n acc = ds ++ acc ∧ ds ≠ [] ∧
      (∀ c ∈ ds, isDigit c = true) ∧ digitsVal ds = n ∧
      (n ≠ 0 → ds.head? ≠ some '0') ∧ ds.head? ≠ some '-' := by
  induction f with
  | zero => intro n acc h; omega
  | succ f ih =>
    intro n acc h
    have hd := digitChar_facts (n % 10) (Nat.mod_lt _ (by decide))
    unfold Nat.toDigitsCore
    by_cases h0 : n / 10 = 0
    · simp only [h0, if_true]
      have hn : n % 10 = n := Nat.mod_eq_of_lt (by omega)
      refine ⟨[Nat.digitChar (n % 10)], rfl, by simp, ?_, ?_, ?_, ?_⟩
      · intro c hc
        rw [List.mem_singleton] at hc
        rw [hc]; exact hd.1
      · simp only [digitsVal, List.foldl_cons, List.foldl_nil, Nat.zero_mul, Nat.zero_add]
        rw [hd.2.1, hn]
      · intro hne
        simp only [List.head?_cons, ne_eq, Option.some.injEq]
        exact hd.2.2.1 (by omega)
      · simp only [List.head?_cons, ne_eq, Option.some.injEq]
        exact hd.2.2.2
    · simp only [h0, if_false]
      obtain ⟨ds, h1, h2, h3, h4, h5, h6⟩ :=
        ih (n / 10) (Nat.digitChar (n % 10) :: acc) (by omega)
      refine ⟨ds ++ [Nat.digitChar (n % 10)], by rw [h1]; simp, by simp, ?_, ?_, ?_, ?_⟩
      · intro c hc
        rw [List.mem_append, List.mem_singleton] at hc
        rcases hc with hc | hc
        · exact h3 c hc
        · rw [hc]; exact hd.1
      · rw [digitsVal_append_singleton, h4, hd.2.1]
        omega
      · intro _
        cases ds with
        | nil => exact absurd rfl h2
        | cons a as => simpa using h5 h0
      · cases ds with
        | nil => exact absurd rfl h2
        | cons a as => simpa using h6

theorem natRepr_spec (n : Nat) :
    natRepr n ≠ [] ∧ (∀ c ∈ natRepr n, isDigit c = true) ∧ digitsVal (natRepr n) = n ∧
      (n ≠ 0 → (natRepr n).head? ≠ some '0') ∧ (natRepr n).head? ≠ some '-' := by
  obtain ⟨ds, h1, h2, h3, h4, h5, h6⟩ := toDigitsCore_spec (n + 1) n [] (by omega)
  have : natRepr n = ds := by
    unfold natRepr Nat.toDigits
    rw [h1, List.append_nil]
  rw [this]
  exact ⟨h2, h3, h4, h5, h6⟩

theorem spanDigits_append (ds : Text) (c : Char) (r : Text)
    (hds : ∀ d ∈ ds, isDigit d = true) (hc : isDigit c = false) :
    spanDigits (ds ++ c :: r) = (ds, c :: r) := by
  induction ds with
  | nil => simp [spanDigits, hc]
  | cons d ds ih =>
    have hd : isDigit d = true := hds d (List.mem_cons_self _ _)
    have ih2 := ih (fun x hx => hds x (List.mem_cons_of_mem _ hx))
    simp [spanDigits, hd, ih2]

/-- Reading back the digits of a natural number, followed by a character that
cannot continue a number. -/
theorem parseUnsigned_natRepr (neg : Bool) (n : Nat) (c : Char) (r : Text)
    (hc : isDigit c = false) (h1 : c ≠ '.') (h2 : c ≠ 'e') (h3 : c ≠ 'E') :
    parseUnsigned neg (natRepr n ++ c :: r) =
      some (JVal.num ((if neg then -1 else 1) * (n : Int)) 0, c :: r) := by
  obtain ⟨hne, hdig, hval, hz, _⟩ := natRepr_spec n
  have hint : parseIntPart (natRepr n ++ c :: r) = some (natRepr n, c :: r) := by
    by_cases h0 : n = 0
    · subst h0
      rfl
    · have hh := hz h0
      cases hds : natRepr n with
      | nil => exact absurd hds hne
      | cons a as =>
        rw [hds] at hh hdig
        have ha : a ≠ '0' := by simpa using hh
        have hda : isDigit a = true := hdig a (List.mem_cons_self _ _)
        rw [List.cons_append, parseIntPart]
        simp only [ha, if_false, hda, if_true]
        rw [← List.cons_append, spanDigits_append (a :: as) c r hdig hc]
  have hfrac : parseFrac (c :: r) = some ([], c :: r) := by simp [parseFrac, h1]
  have hexp : parseExp (c :: r) = some (0, c :: r) := by simp [parseExp, h2, h3]
  unfold parseUnsigned
  simp only [hint, hfrac, hexp, List.append_nil, hval, List.length_nil]
  simp [mkNum]

theorem parseNumber_intRepr (z : Int) (c : Char) (r : Text)
    (hc : isDigit c = false) (h1 : c ≠ '.') (h2 : c ≠ 'e') (h3 : c ≠ 'E') :
    parseNumber (intRepr z ++ c :: r) = some (JVal.num z 0, c :: r) := by
  cases z with
  | ofNat n =>
    obtain ⟨hne, _, _, _, hm⟩ := natRepr_spec n
    have hu := parseUnsigned_natRepr false n c r hc h1 h2 h3
    simp only [intRepr]
    cases hds : natRepr n with
    | nil => exact absurd hds hne
    | cons a as =>
      rw [hds] at hm hu
      have ha : a ≠ '-' := by simpa using hm
      rw [List.cons_append, parseNumber]
      simp only [ha, if_false]
      rw [List.cons_append] at hu
      rw [hu]
      simp
  | negSucc n =>
    have hu := parseUnsigned_natRepr true (n + 1) c r hc h1 h2 h3
    simp only [intRepr, List.cons_append, parseNumber, if_true]
    rw [hu]
    simp [Int.negSucc_eq]

/-! ## Reading back values, objects and arrays -/

theorem skipWs_cons (c : Char) (X : Text) (h : isWs c = false) : skipWs (c :: X) = c :: X := by
  simp [skipWs, h]

theorem numStart_facts (a : Char) (h : a = '-' ∨ isDigit a = true) :
    isWs a = false ∧ a ≠ lbrace ∧ a ≠ '[' ∧ a ≠ dquote := by
  rcases h with h | h
  · subst h; decide
  · refine ⟨?_, ?_, ?_, ?_⟩
    · cases hw : isWs a with
      | false => rfl
      | true =>
        simp only [isWs, Bool.or_eq_true, decide_eq_true_eq] at hw
        rcases hw with ((hw | hw) | hw) | hw <;> (subst hw; exact absurd h (by decide))
    · intro he; subst he; exact absurd h (by decide)
    · intro he; subst he; exact absurd h (by decide)
    · intro he; subst he; exact absurd h (by decide)

theorem intRepr_head (z : Int) :
    ∃ a as, intRepr z = a :: as ∧ (a = '-' ∨ isDigit a = true) := by
  cases z with
  | ofNat n =>
    obtain ⟨hne, hdig, _⟩ := natRepr_spec n
    simp only [intRepr]
    cases hds : natRepr n with
    | nil => exact absurd hds hne
    | cons a as =>
      rw [hds] at hdig
      exact ⟨a, as, rfl, Or.inr (hdig a (List.mem_cons_self _ _))⟩
  | negSucc n => exact ⟨'-', natRepr (n + 1), rfl, Or.inl rfl⟩

theorem quote_append (s X : Text) : quote s ++ X = dquote :: (quoteBody s ++ dquote :: X) := by
  simp [quote]

theorem parseJ_value_str (F : Nat) (s X : Text) :
    parseJ (F + 1) PMode.value (quote s ++ X) = some (JVal.str s, X) := by
  rw [quote_append, parseJ, skipWs_cons _ _ (by decide)]
  simp only [show dquote ≠ lbrace by decide, show dquote ≠ '[' by decide, if_false, if_true,
    parseStringBody_quoteBody]

theorem parseJ_value_bool (F : Nat) (b : Bool) (X : Text) :
    parseJ (F + 1) PMode.value ((JVal.bool b).stringify ++ X) = some (JVal.bool b, X) := by
  cases b <;> rfl

theorem parseJ_value_int (F : Nat) (z : Int) (c : Char) (r : Text)
    (hc : isDigit c = false) (h1 : c ≠ '.') (h2 : c ≠ 'e') (h3 : c ≠ 'E') :
    parseJ (F + 1) PMode.value (intRepr z ++ c :: r) = some (JVal.num z 0, c :: r) := by
  have hp := parseNumber_intRepr z c r hc h1 h2 h3
  obtain ⟨a, as, he, ha⟩ := intRepr_head z
  obtain ⟨f1, f2, f3, f4⟩ := numStart_facts a ha
  rw [he, List.cons_append] at hp ⊢
  rw [parseJ, skipWs_cons _ _ f1]
  simp only [f2, f3, f4, if_false]
  rw [if_pos ha, hp]

/-- A scalar field value is read back when a comma or a closing brace follows. -/
theorem parseJ_value_scalar (F : Nat) (v : JVal) (c : Char) (r : Text)
    (hv : (v.isInt || v.isStr || v.isBool) = true) (hc : c = ',' ∨ c = rbrace) :
    parseJ (F + 1) PMode.value (v.stringify ++ c :: r) = some (v, c :: r) := by
  have hcf : isDigit c = false ∧ c ≠ '.' ∧ c ≠ 'e' ∧ c ≠ 'E' := by
    rcases hc with hc | hc <;> (subst hc; decide)
  cases v with
  | undefined => simp [JVal.isInt, JVal.isStr, JVal.isBool] at hv
  | null => simp [JVal.isInt, JVal.isStr, JVal.isBool] at hv
  | bool b => exact parseJ_value_bool F b _
  | num m s =>
    cases s with
    | zero =>
      have e : (JVal.num m 0).stringify = intRepr m := by simp [JVal.stringify, numRepr]
      rw [e]
      exact parseJ_value_int F m c r hcf.1 hcf.2.1 hcf.2.2.1 hcf.2.2.2
    | succ k => simp [JVal.isInt, JVal.isStr, JVal.isBool] at hv
  | str s =>
    have e : (JVal.str s).stringify = quote s := by simp [JVal.stringify]
    rw [e]
    exact parseJ_value_str F s _
  | arr l => simp [JVal.isInt, JVal.isStr, JVal.isBool] at hv
  | obj l => simp [JVal.isInt, JVal.isStr, JVal.isBool] at hv

theorem parseJ_value_lbrace (F : Nat) (k Z : Text) :
    parseJ (F + 1) PMode.value (lbrace :: (quote k ++ Z)) =
      parseJ F (PMode.member []) (quote k ++ Z) := by
  rw [quote_append, parseJ, skipWs_cons _ _ (by decide)]
  simp only [if_true]
  rw [skipWs_cons _ _ (by decide)]
  simp only [show dquote ≠ rbrace by decide, if_false]

theorem parseJ_member (F : Nat) (acc : List (Text × JVal)) (k : Text) (v : JVal) (X : Text)
    (hv : parseJ F PMode.value (v.stringify ++ X) = some (v, X)) :
    parseJ (F + 1) (PMode.member acc) (quote k ++ ':' :: (v.stringify ++ X)) =
      parseJ F (PMode.members (setMember acc k v)) X := by
  rw [quote_append, parseJ, skipWs_cons _ _ (by decide)]
  simp only [if_true, parseStringBody_quoteBody]
  rw [skipWs_cons _ _ (by decide)]
  simp only [if_true, hv]

theorem parseJ_members_comma (F : Nat) (acc : List (Text × JVal)) (Z : Text) :
    parseJ (F + 1) (PMode.members acc) (',' :: Z) = parseJ F (PMode.member acc) Z := by
  rw [parseJ, skipWs_cons _ _ (by decide)]
  simp only [if_true]

theorem parseJ_members_end (F : Nat) (acc : List (Text × JVal)) (Z : Text) :
    parseJ (F + 1) (PMode.members acc) (rbrace :: Z) = some (JVal.obj acc, Z) := by
  rw [parseJ, skipWs_cons _ _ (by decide)]
  simp only [show rbrace ≠ ',' by decide, if_false, if_true]

theorem parseJ_elems_end (F : Nat) (acc : List JVal) (Z : Text) :
    parseJ (F + 1) (PMode.elems acc) (']' :: Z) = some (JVal.arr acc, Z) := by
  rw [parseJ, skipWs_cons _ _ (by decide)]
  simp only [show (']' : Char) ≠ ',' by decide, if_false, if_true]

theorem parseJ_elems_comma (F : Nat) (acc : List JVal) (Z : Text) (v : JVal) (r : Text)
    (hv : parseJ F PMode.value Z = some (v, r)) :
    parseJ (F + 1) (PMode.elems acc) (',' :: Z) = parseJ F (PMode.elems (acc ++ [v])) r := by
  rw [parseJ, skipWs_cons _ _ (by decide)]
  simp only [if_true, hv]

theorem wellFormed_fields (t : Todo) (h : t.wellFormed = true) :
    (t.id.isInt || t.id.isStr || t.id.isBool) = true ∧
    (t.title.isInt || t.title.isStr || t.title.isBool) = true ∧
    (t.description.isInt || t.description.isStr || t.description.isBool) = true ∧
    (t.completed.isInt || t.completed.isStr || t.completed.isBool) = true ∧
    (t.order.isInt || t.order.isStr || t.order.isBool) = true := by
  simp only [Todo.wellFormed, Bool.and_eq_true, Bool.or_eq_true] at h
  simp only [Bool.or_eq_true]
  tauto

theorem scalar_ne_undefined (v : JVal) (h : (v.isInt || v.isStr || v.isBool) = true) :
    v ≠ JVal.undefined := by
  intro e; subst e; simp [JVal.isInt, JVal.isStr, JVal.isBool] at h

theorem stringifyMembers_cons (first : Bool) (k : Text) (v : JVal)
    (rest : List (Text × JVal)) (h : v ≠ JVal.undefined) :
    stringifyMembers first ((k, v) :: rest) =
      (if first then [] else [',']) ++
        (quote k ++ (':' :: (v.stringify ++ stringifyMembers false rest))) := by
  cases v <;> first | exact absurd rfl h | simp [stringifyMembers]

theorem stringify_toJSON (t : Todo) (h : t.wellFormed = true) (X : Text) :
    t.toJSON.stringify ++ X =
      lbrace :: (quote keyId ++ ':' :: (t.id.stringify ++ ',' ::
        (quote keyTitle ++ ':' :: (t.title.stringify ++ ',' ::
          (quote keyDescription ++ ':' :: (t.description.stringify ++ ',' ::
            (quote keyCompleted ++ ':' :: (t.completed.stringify ++ ',' ::
              (quote keyOrder ++ ':' :: (t.order.stringify ++ rbrace :: X)))))))))) := by
  obtain ⟨h1, h2, h3, h4, h5⟩ := wellFormed_fields t h
  simp only [Todo.toJSON, JVal.stringify,
    stringifyMembers_cons _ _ _ _ (scalar_ne_undefined _ h1),
    stringifyMembers_cons _ _ _ _ (scalar_ne_undefined _ h2),
    stringifyMembers_cons _ _ _ _ (scalar_ne_undefined _ h3),
    stringifyMembers_cons _ _ _ _ (scalar_ne_undefined _ h4),
    stringifyMembers_cons _ _ _ _ (scalar_ne_undefined _ h5)]
  simp [stringifyMembers]

theorem parseJ_todo (fuel : Nat) (hf : 12 ≤ fuel) (t : Todo) (h : t.wellFormed = true)
    (X : Text) :
    parseJ fuel PMode.value (t.toJSON.stringify ++ X) = some (t.toJSON, X) := by
  obtain ⟨F, rfl⟩ : ∃ F, fuel = F + 12 := ⟨fuel - 12, by omega⟩
  obtain ⟨h1, h2, h3, h4, h5⟩ := wellFormed_fields t h
  rw [stringify_toJSON t h X]
  rw [show F + 12 = (F + 11) + 1 from rfl, parseJ_value_lbrace]
  rw [show F + 11 = (F + 10) + 1 from rfl,
    parseJ_member _ _ _ _ _ (parseJ_value_scalar (F + 9) _ _ _ h1 (Or.inl rfl))]
  rw [show F + 10 = (F + 9) + 1 from rfl, parseJ_members_comma]
  rw [show F + 9 = (F + 8) + 1 from rfl,
    parseJ_member _ _ _ _ _ (parseJ_value_scalar (F + 7) _ _ _ h2 (Or.inl rfl))]
  rw [show F + 8 = (F + 7) + 1 from rfl, parseJ_members_comma]
  rw [show F + 7 = (F + 6) + 1 from rfl,
    parseJ_member _ _ _ _ _ (parseJ_value_scalar (F + 5) _ _ _ h3 (Or.inl rfl))]
  rw [show F + 6 = (F + 5) + 1 from rfl, parseJ_members_comma]
  rw [show F + 5 = (F + 4) + 1 from rfl,
    parseJ_member _ _ _ _ _ (parseJ_value_scalar (F + 3) _ _ _ h4 (Or.inl rfl))]
  rw [show F + 4 = (F + 3) + 1 from rfl, parseJ_members_comma]
  rw [show F + 3 = (F + 2) + 1 from rfl,
    parseJ_member _ _ _ _ _ (parseJ_value_scalar (F + 1) _ _ _ h5 (Or.inr rfl))]
  rw [show F + 2 = (F + 1) + 1 from rfl, parseJ_members_end]
  rfl


theorem stringifyElems_cons (first : Bool) (v : JVal) (rest : List JVal) :
    stringifyElems first (v :: rest) =
      (if first then [] else [',']) ++ (v.stringify ++ stringifyElems false rest) := by
  simp [stringifyElems]

theorem parseJ_elems_todos (ts : List Todo) : ∀ (fuel : Nat) (acc : List JVal) (X : Text),
    ts.length + 13 ≤ fuel → (∀ t ∈ ts, t.wellFormed = true) →
    parseJ fuel (PMode.elems acc) (stringifyElems false (ts.map Todo.toJSON) ++ ']' :: X) =
      some (JVal.arr (acc ++ ts.map Todo.toJSON), X) := by
  induction ts with
  | nil =>
    intro fuel acc X hf _
    obtain ⟨F, rfl⟩ : ∃ F, fuel = F + 1 := ⟨fuel - 1, by simp at hf; omega⟩
    simp only [List.map_nil, stringifyElems, List.nil_append, List.append_nil]
    exact parseJ_elems_end F acc X
  | cons t ts ih =>
    intro fuel acc X hf hwf
    obtain ⟨F, rfl⟩ : ∃ F, fuel = F + 1 := ⟨fuel - 1, by simp at hf; omega⟩
    simp only [List.length_cons] at hf
    have ht := hwf t (List.mem_cons_self _ _)
    rw [List.map_cons, stringifyElems_cons]
    simp only [Bool.false_eq_true, if_false, List.cons_append, List.nil_append,
      List.append_assoc]
    rw [parseJ_elems_comma F acc _ _ _ (parseJ_todo F (by omega) t ht _)]
    rw [ih F (acc ++ [t.toJSON]) X (by omega) (fun x hx => hwf x (List.mem_cons_of_mem _ hx))]
    simp

theorem length_stringifyElems (ts : List Todo) :
    ts.length ≤ (stringifyElems false (ts.map Todo.toJSON)).length := by
  induction ts with
  | nil => simp
  | cons t ts ih =>
    rw [List.map_cons, stringifyElems_cons]
    simp only [Bool.false_eq_true, if_false, List.cons_append, List.nil_append,
      List.length_cons, List.length_append]
    omega

theorem length_stringify_todo (t : Todo) (h : t.wellFormed = true) :
    12 ≤ t.toJSON.stringify.length := by
  have e := stringify_toJSON t h []
  rw [List.append_nil] at e
  rw [e]
  simp only [List.length_cons, List.length_append, quote, keyDescription]
  omega

theorem parseJ_todo_array (t : Todo) (ts : List Todo) (fuel : Nat) (X : Text)
    (hf : ts.length + 14 ≤ fuel) (hwf : ∀ x ∈ t :: ts, x.wellFormed = true) :
    parseJ fuel PMode.value ((JVal.arr ((t :: ts).map Todo.toJSON)).stringify ++ X) =
      some (JVal.arr ((t :: ts).map Todo.toJSON), X) := by
  obtain ⟨F, rfl⟩ : ∃ F, fuel = F + 1 := ⟨fuel - 1, by omega⟩
  have ht := hwf t (List.mem_cons_self _ _)
  have e : (JVal.arr ((t :: ts).map Todo.toJSON)).stringify ++ X =
      '[' :: (t.toJSON.stringify ++ (stringifyElems false (ts.map Todo.toJSON) ++ ']' :: X)) := by
    simp [JVal.stringify, stringifyElems_cons]
  have hp := parseJ_todo F (by omega) t ht (stringifyElems false (ts.map Todo.toJSON) ++ ']' :: X)
  have he := parseJ_elems_todos ts F [t.toJSON] X (by omega)
    (fun x hx => hwf x (List.mem_cons_of_mem _ hx))
  rw [e, parseJ, skipWs_cons _ _ (by decide)]
  simp only [show ('[' : Char) ≠ lbrace by decide, if_false, if_true]
  have e2 := stringify_toJSON t ht (stringifyElems false (ts.map Todo.toJSON) ++ ']' :: X)
  rw [e2] at hp ⊢
  rw [skipWs_cons _ _ (by decide)]
  simp only [show lbrace ≠ ']' by decide, if_false, hp, he]
  rfl

/-- `JSON.parse(JSON.stringify(items.map(toJSON)))` gives back the array of plain objects. -/
theorem jsonParse_stringify_todos (ts : List Todo) (hwf : ∀ t ∈ ts, t.wellFormed = true) :
    jsonParse (JVal.arr (ts.map Todo.toJSON)).stringify = some (JVal.arr (ts.map Todo.toJSON)) := by
  cases ts with
  | nil => rfl
  | cons t ts =>
    have ht := hwf t (List.mem_cons_self _ _)
    have hl1 := length_stringify_todo t ht
    have hl2 := length_stringifyElems ts
    have e : (JVal.arr ((t :: ts).map Todo.toJSON)).stringify =
        '[' :: (t.toJSON.stringify ++ (stringifyElems false (ts.map Todo.toJSON) ++ [']'])) := by
      simp [JVal.stringify, stringifyElems_cons]
    have hlen : ts.length + 14 ≤ (JVal.arr ((t :: ts).map Todo.toJSON)).stringify.length + 1 := by
      rw [e]
      simp only [List.length_cons, List.length_append, List.length_nil]
      omega
    have hp := parseJ_todo_array t ts _ [] hlen hwf
    rw [List.append_nil] at hp
    unfold jsonParse
    rw [hp]
    rfl

theorem hydrate_toJSON (t : Todo) (h : t.wellFormed = true) : hydrate t.toJSON = Except.ok t := by
  obtain ⟨h1, h2, h3, h4, h5⟩ := wellFormed_fields t h
  have d3 := scalar_ne_undefined _ h3
  have d4 := scalar_ne_undefined _ h4
  have d5 := scalar_ne_undefined _ h5
  have e : ∀ v, v ≠ JVal.undefined → ∀ d, orDefault v d = v := by
    intro v hv d
    cases v <;> first | exact absurd rfl hv | rfl
  have k1 : getProp t.toJSON keyId = some t.id := rfl
  have k2 : getProp t.toJSON keyTitle = some t.title := rfl
  have k3 : getProp t.toJSON keyDescription = some t.description := rfl
  have k4 : getProp t.toJSON keyCompleted = some t.completed := rfl
  have k5 : getProp t.toJSON keyOrder = some t.order := rfl
  simp only [hydrate, k1, k2, k3, k4, k5, Todo.new, e _ d3, e _ d4, e _ d5]

theorem hydrateAll_toJSON (ts : List Todo) (hwf : ∀ t ∈ ts, t.wellFormed = true) :
    hydrateAll (ts.map Todo.toJSON) = Except.ok ts := by
  induction ts with
  | nil => rfl
  | cons t ts ih =>
    rw [List.map_cons, hydrateAll, hydrate_toJSON t (hwf t (List.mem_cons_self _ _)),
      ih (fun x hx => hwf x (List.mem_cons_of_mem _ hx))]

theorem loadTodos_saveTodos (ls : LocalStorage) (ts : List Todo)
    (hwf : ∀ t ∈ ts, t.wellFormed = true) :
    StorageManager.loadTodos (StorageManager.saveTodos ls ts) = Except.ok ts := by
  have hp := jsonParse_stringify_todos ts hwf
  have hne : (JVal.arr (ts.map Todo.toJSON)).stringify ≠ [] := by
    simp [JVal.stringify]
  simp only [StorageManager.saveTodos, jsonStringify, StorageManager.loadTodos, hne, if_false,
    StorageManager.loadTodosTry, hp,
    hydrateAll_toJSON ts hwf]


/-! ## Rendering -/

theorem renderTodoItem_fields (s : State) (a : Nat) :
    (renderTodoItem s a).heap = s.heap ∧ (renderTodoItem s a).todos = s.todos ∧
      (renderTodoItem s a).filter = s.filter ∧ (renderTodoItem s a).theme = s.theme ∧
      (renderTodoItem s a).storage = s.storage := by
  unfold renderTodoItem
  dsimp only
  split_ifs
  · exact ⟨rfl, rfl, rfl, rfl, rfl⟩
  · exact ⟨rfl, rfl, rfl, rfl, rfl⟩
  · cases s.listEl <;> exact ⟨rfl, rfl, rfl, rfl, rfl⟩

theorem foldl_renderTodoItem_fields (l : List Nat) : ∀ s : State,
    (l.foldl renderTodoItem s).heap = s.heap ∧ (l.foldl renderTodoItem s).todos = s.todos ∧
      (l.foldl renderTodoItem s).filter = s.filter ∧ (l.foldl renderTodoItem s).theme = s.theme ∧
      (l.foldl renderTodoItem s).storage = s.storage := by
  induction l with
  | nil => intro s; exact ⟨rfl, rfl, rfl, rfl, rfl⟩
  | cons a l ih =>
    intro s
    obtain ⟨h1, h2, h3, h4, h5⟩ := ih (renderTodoItem s a)
    obtain ⟨g1, g2, g3, g4, g5⟩ := renderTodoItem_fields s a
    rw [List.foldl_cons]
    exact ⟨h1.trans g1, h2.trans g2, h3.trans g3, h4.trans g4, h5.trans g5⟩

/-- Rendering changes nothing but the list element. -/
theorem renderTodos_fields (s : State) :
    (renderTodos s).heap = s.heap ∧ (renderTodos s).todos = s.todos ∧
      (renderTodos s).filter = s.filter ∧ (renderTodos s).theme = s.theme ∧
      (renderTodos s).storage = s.storage := by
  unfold renderTodos
  cases h : s.listEl with
  | none => exact ⟨rfl, rfl, rfl, rfl, rfl⟩
  | some lis => exact foldl_renderTodoItem_fields _ _

/-- The `<li>` that `renderTodoItem` builds for an instance. -/
theorem renderTodoItem_visible (s : State) (a : Nat) (lis : List Li)
    (hl : s.listEl = some lis) (hp : passesFilter s.filter (readTodo s.heap a) = true) :
    renderTodoItem s a =
      { s with listEl := some (lis ++ [⟨a, (readTodo s.heap a).completed.truthy⟩]) } := by
  unfold passesFilter at hp
  unfold renderTodoItem
  by_cases h1 : s.filter = filterActive
  · rw [if_pos h1] at hp
    have : (readTodo s.heap a).completed.truthy = false := by simpa using hp
    have hne : filterActive ≠ filterCompleted := by decide
    simp [h1, this, hl, hne]
  · rw [if_neg h1] at hp
    by_cases h2 : s.filter = filterCompleted
    · rw [if_pos h2] at hp
      have hne : filterCompleted ≠ filterActive := by decide
      simp [h2, hp, hl, hne]
    · simp [h1, h2, hl]

theorem foldl_renderTodoItem_visible (l : List Nat) : ∀ (s : State) (lis : List Li),
    s.listEl = some lis → (∀ a ∈ l, passesFilter s.filter (readTodo s.heap a) = true) →
    (l.foldl renderTodoItem s).listEl =
      some (lis ++ l.map (fun a => ⟨a, (readTodo s.heap a).completed.truthy⟩)) := by
  induction l with
  | nil => intro s lis hl _; simp [hl]
  | cons a l ih =>
    intro s lis hl hp
    rw [List.foldl_cons, renderTodoItem_visible s a lis hl (hp a (List.mem_cons_self _ _))]
    have h := ih { s with listEl := some (lis ++ [⟨a, (readTodo s.heap a).completed.truthy⟩]) }
      (lis ++ [⟨a, (readTodo s.heap a).completed.truthy⟩]) rfl
      (fun x hx => hp x (List.mem_cons_of_mem _ hx))
    rw [h]
    simp

theorem mem_sortByOrder (heap : List Todo) (l : List Nat) (a : Nat) :
    a ∈ sortByOrder heap l ↔ a ∈ l := by
  unfold sortByOrder
  exact List.mem_insertionSort _

/-- What `renderTodos` leaves in the list element. -/
theorem renderTodos_listEl (s : State) (lis : List Li) (hl : s.listEl = some lis) :
    (renderTodos s).listEl =
      some ((sortByOrder s.heap
        (s.todos.filter (fun a => passesFilter s.filter (readTodo s.heap a)))).map
          (fun a => ⟨a, (readTodo s.heap a).completed.truthy⟩)) := by
  unfold renderTodos
  rw [hl]
  simp only
  rw [foldl_renderTodoItem_visible _ { s with listEl := some [] } [] rfl]
  · simp
  · intro a ha
    rw [mem_sortByOrder, List.mem_filter] at ha
    exact ha.2

theorem renderTodos_shown (s : State) (lis : List Li) (hl : s.listEl = some lis) :
    (renderTodos s).shown =
      sortByOrder s.heap (s.todos.filter (fun a => passesFilter s.filter (readTodo s.heap a))) := by
  unfold State.shown
  rw [renderTodos_listEl s lis hl]
  simp [List.map_map, Function.comp_def]


/-! ## Sorting by `order` -/

theorem orderedInsert_congr {α : Type} (r r2 : α → α → Prop) [DecidableRel r] [DecidableRel r2]
    (a : α) (l : List α) (h : ∀ b ∈ l, r a b ↔ r2 a b) :
    List.orderedInsert r a l = List.orderedInsert r2 a l := by
  induction l with
  | nil => rfl
  | cons b l ih =>
    have hb := h b (List.mem_cons_self _ _)
    have ih2 := ih (fun x hx => h x (List.mem_cons_of_mem _ hx))
    by_cases hr : r a b
    · simp [List.orderedInsert, hr, hb.mp hr]
    · have hr2 : ¬ r2 a b := fun h2 => hr (hb.mpr h2)
      simp [List.orderedInsert, hr, hr2, ih2]

theorem insertionSort_congr {α : Type} (r r2 : α → α → Prop) [DecidableRel r] [DecidableRel r2]
    (l : List α) (h : ∀ a ∈ l, ∀ b ∈ l, r a b ↔ r2 a b) :
    List.insertionSort r l = List.insertionSort r2 l := by
  induction l with
  | nil => rfl
  | cons a l ih =>
    have ih2 := ih (fun x hx y hy => h x (List.mem_cons_of_mem _ hx) y (List.mem_cons_of_mem _ hy))
    rw [List.insertionSort, List.insertionSort, ih2]
    apply orderedInsert_congr
    intro b hb
    rw [List.mem_insertionSort] at hb
    exact h a (List.mem_cons_self _ _) b (List.mem_cons_of_mem _ hb)

theorem orderLe_int (x y : JVal) (hx : x.isInt = true) (hy : y.isInt = true) :
    orderLe x y = true ↔ x.toInt ≤ y.toInt := by
  cases x <;> simp [JVal.isInt] at hx
  cases y <;> simp [JVal.isInt] at hy
  rename_i m s m2 s2
  cases s <;> simp [JVal.isInt] at hx
  cases s2 <;> simp [JVal.isInt] at hy
  simp [orderLe, toNumber, JVal.toInt]

/-- On instances with integer orders, the sort of the program is ascending in `order`. -/
theorem sortByOrder_sorted (heap : List Todo) (l : List Nat)
    (h : ∀ a ∈ l, (readTodo heap a).order.isInt = true) :
    ((sortByOrder heap l).map (fun a => (readTodo heap a).order.toInt)).Sorted (· ≤ ·) := by
  have e : sortByOrder heap l =
      l.insertionSort (fun a b => (readTodo heap a).order.toInt ≤ (readTodo heap b).order.toInt) := by
    unfold sortByOrder
    apply insertionSort_congr
    intro a ha b hb
    exact orderLe_int _ _ (h a ha) (h b hb)
  rw [e]
  haveI : IsTotal Nat
      (fun a b => (readTodo heap a).order.toInt ≤ (readTodo heap b).order.toInt) :=
    ⟨fun a b => le_total _ _⟩
  haveI : IsTrans Nat
      (fun a b => (readTodo heap a).order.toInt ≤ (readTodo heap b).order.toInt) :=
    ⟨fun a b c hab hbc => le_trans hab hbc⟩
  have hs := List.sorted_insertionSort
    (fun a b => (readTodo heap a).order.toInt ≤ (readTodo heap b).order.toInt) l
  unfold List.Sorted at hs ⊢
  rw [List.pairwise_map]
  exact hs

theorem sortByOrder_perm (heap : List Todo) (l : List Nat) : (sortByOrder heap l).Perm l := by
  unfold sortByOrder
  exact List.perm_insertionSort _ l

/-- C6: for every state whose page has the list element and whose items carry
integer `order` values, the list that `renderTodos` displays consists of exactly
the items of `state.todos` that satisfy the current filter (`active`: not
completed, `completed`: completed, `all`: every item), it is ascending in
`order`, and rendering leaves `state.todos`, the instances, `state.filter` and
the stored data unchanged. -/
theorem renderTodos_displays_filtered_sorted (s : State) (lis : List Li)
    (hl : s.listEl = some lis)
    (hord : ∀ a ∈ s.todos, (readTodo s.heap a).order.isInt = true) :
    (s.filter = filterActive → (renderTodos s).shown.Perm
        (s.todos.filter (fun a => !(readTodo s.heap a).completed.truthy))) ∧
    (s.filter = filterCompleted → (renderTodos s).shown.Perm
        (s.todos.filter (fun a => (readTodo s.heap a).completed.truthy))) ∧
    (s.filter = filterAll → (renderTodos s).shown.Perm s.todos) ∧
    ((renderTodos s).shown.map (fun a => (readTodo s.heap a).order.toInt)).Sorted (· ≤ ·) ∧
    (renderTodos s).todos = s.todos ∧ (renderTodos s).heap = s.heap ∧
    (renderTodos s).items = s.items ∧
    (renderTodos s).filter = s.filter ∧ (renderTodos s).storage = s.storage := by
  obtain ⟨f1, f2, f3, _, f5⟩ := renderTodos_fields s
  have hs := renderTodos_shown s lis hl
  refine ⟨?_, ?_, ?_, ?_, f2, f1, ?_, f3, f5⟩
  · intro hf
    rw [hs]
    refine (sortByOrder_perm _ _).trans ?_
    simp [passesFilter, hf]
  · intro hf
    have hne : filterCompleted ≠ filterActive := by decide
    rw [hs]
    refine (sortByOrder_perm _ _).trans ?_
    simp [passesFilter, hf, hne]
  · intro hf
    have hne1 : filterAll ≠ filterActive := by decide
    have hne2 : filterAll ≠ filterCompleted := by decide
    rw [hs]
    refine (sortByOrder_perm _ _).trans ?_
    simp [passesFilter, hf, hne1, hne2]
  · rw [hs]
    apply sortByOrder_sorted
    intro a ha
    exact hord a (List.mem_filter.mp ha).1
  · unfold State.items
    rw [f1, f2]


/-! ## What `data.map` returns and what the reader can produce -/

theorem hydrateAll_ok_of_no_null (items : List JVal) (h : ∀ o ∈ items, o ≠ JVal.null)
    (hu : ∀ o ∈ items, o ≠ JVal.undefined) :
    ∃ ts, hydrateAll items = Except.ok ts ∧
      List.Forall₂ (fun o t => hydrate o = Except.ok t) items ts := by
  induction items with
  | nil => exact ⟨[], rfl, List.Forall₂.nil⟩
  | cons o rest ih =>
    obtain ⟨ts, h1, h2⟩ := ih (fun x hx => h x (List.mem_cons_of_mem _ hx))
      (fun x hx => hu x (List.mem_cons_of_mem _ hx))
    have ho : ∃ t, hydrate o = Except.ok t := by
      have hn := h o (List.mem_cons_self _ _)
      have hn2 := hu o (List.mem_cons_self _ _)
      cases o <;> first | exact absurd rfl hn | exact absurd rfl hn2 | exact ⟨_, rfl⟩
    obtain ⟨t, ht⟩ := ho
    exact ⟨t :: ts, by rw [hydrateAll, ht, h1], List.Forall₂.cons ht h2⟩

theorem hydrateAll_error_of_null (items : List JVal) (h : JVal.null ∈ items) :
    ∃ e, hydrateAll items = Except.error e := by
  induction items with
  | nil => simp at h
  | cons o rest ih =>
    rw [hydrateAll]
    cases ho : hydrate o with
    | error e => exact ⟨e, rfl⟩
    | ok t =>
      have hne : o ≠ JVal.null := by
        intro e; subst e; simp [hydrate, getProp] at ho
      have hr : JVal.null ∈ rest := by
        rcases List.mem_cons.mp h with h1 | h1
        · exact absurd h1.symm hne
        · exact h1
      obtain ⟨e, he⟩ := ih hr
      exact ⟨e, by simp [he]⟩


theorem mkNum_isNum (neg : Bool) (a b : Nat) (e : Int) : ∃ m s, mkNum neg a b e = JVal.num m s := by
  unfold mkNum
  dsimp only
  split_ifs <;> exact ⟨_, _, rfl⟩

theorem parseUnsigned_isNum (neg : Bool) (s : Text) (v : JVal) (r : Text)
    (h : parseUnsigned neg s = some (v, r)) : ∃ m sc, v = JVal.num m sc := by
  unfold parseUnsigned at h
  split at h
  · simp at h
  · split at h
    · simp at h
    · split at h
      · simp at h
      · simp only [Option.some.injEq, Prod.mk.injEq] at h
        obtain ⟨m, sc, hm⟩ := mkNum_isNum neg _ _ _
        exact ⟨m, sc, by rw [← h.1, hm]⟩

theorem parseNumber_isNum (s : Text) (v : JVal) (r : Text)
    (h : parseNumber s = some (v, r)) : ∃ m sc, v = JVal.num m sc := by
  unfold parseNumber at h
  split at h
  · simp at h
  · split_ifs at h
    · exact parseUnsigned_isNum _ _ _ _ h
    · exact parseUnsigned_isNum _ _ _ _ h

theorem parseLiteral_cases (s : Text) (v : JVal) (r : Text)
    (h : parseLiteral s = some (v, r)) : (∃ b, v = JVal.bool b) ∨ v = JVal.null := by
  unfold parseLiteral at h
  split at h
  · simp only [Option.some.injEq, Prod.mk.injEq] at h; exact Or.inl ⟨_, h.1.symm⟩
  · simp only [Option.some.injEq, Prod.mk.injEq] at h; exact Or.inl ⟨_, h.1.symm⟩
  · simp only [Option.some.injEq, Prod.mk.injEq] at h; exact Or.inr h.1.symm
  · simp at h

/-- The reader never produces `undefined`, neither as a value nor as an element
of an array it returns. -/
theorem parseJ_defined (fuel : Nat) :
    (∀ s v r, parseJ fuel PMode.value s = some (v, r) →
      v ≠ JVal.undefined ∧ ∀ items, v = JVal.arr items → ∀ x ∈ items, x ≠ JVal.undefined) ∧
    (∀ acc s v r, (∀ x ∈ acc, x ≠ JVal.undefined) →
      parseJ fuel (PMode.elems acc) s = some (v, r) →
      v ≠ JVal.undefined ∧ ∀ items, v = JVal.arr items → ∀ x ∈ items, x ≠ JVal.undefined) ∧
    (∀ acc s v r, parseJ fuel (PMode.member acc) s = some (v, r) → ∃ ms, v = JVal.obj ms) ∧
    (∀ acc s v r, parseJ fuel (PMode.members acc) s = some (v, r) → ∃ ms, v = JVal.obj ms) := by
  induction fuel with
  | zero =>
    refine ⟨?_, ?_, ?_, ?_⟩ <;> intros <;> simp_all [parseJ]
  | succ f ih =>
    obtain ⟨ihv, ihe, ihm, ihms⟩ := ih
    refine ⟨?_, ?_, ?_, ?_⟩
    · intro s v r h
      rw [parseJ] at h
      split at h
      · simp at h
      · split_ifs at h with c1 c2 c3 c4
        · split at h
          · simp at h
          · split_ifs at h
            · simp only [Option.some.injEq, Prod.mk.injEq] at h
              rw [← h.1]; simp
            · obtain ⟨ms, hms⟩ := ihm _ _ _ _ h
              rw [hms]; simp
        · split at h
          · simp at h
          · split_ifs at h
            · simp only [Option.some.injEq, Prod.mk.injEq] at h
              rw [← h.1]; simp
            · split at h
              · rename_i v1 r1 hv1
                have q := ihv _ _ _ hv1
                exact ihe _ _ _ _ (by simpa using q.1) h
              · simp at h
        · split at h
          · simp only [Option.some.injEq, Prod.mk.injEq] at h
            rw [← h.1]; simp
          · simp at h
        · obtain ⟨m, sc, hm⟩ := parseNumber_isNum _ _ _ h
          rw [hm]; simp
        · rcases parseLiteral_cases _ _ _ h with ⟨b, hb⟩ | hb <;> (rw [hb]; simp)
    · intro acc s v r hacc h
      rw [parseJ] at h
      split at h
      · simp at h
      · split_ifs at h
        · split at h
          · rename_i v1 r1 hv1
            have q := ihv _ _ _ hv1
            refine ihe _ _ _ _ ?_ h
            intro x hx
            rcases List.mem_append.mp hx with hx | hx
            · exact hacc x hx
            · rw [List.mem_singleton.mp hx]; exact q.1
          · simp at h
        · simp only [Option.some.injEq, Prod.mk.injEq] at h
          rw [← h.1]
          refine ⟨by simp, ?_⟩
          intro items hi x hx
          rw [← JVal.arr.inj hi] at hx
          exact hacc x hx
    · intro acc s v r h
      rw [parseJ] at h
      split at h
      · simp at h
      · split_ifs at h
        split at h
        · simp at h
        · split at h
          · simp at h
          · split_ifs at h
            split at h
            · exact ihms _ _ _ _ h
            · simp at h
    · intro acc s v r h
      rw [parseJ] at h
      split at h
      · simp at h
      · split_ifs at h
        · exact ihm _ _ _ _ h
        · simp only [Option.some.injEq, Prod.mk.injEq] at h
          exact ⟨_, h.1.symm⟩

theorem jsonParse_arr_defined (raw : Text) (items : List JVal)
    (h : jsonParse raw = some (JVal.arr items)) : ∀ x ∈ items, x ≠ JVal.undefined := by
  unfold jsonParse at h
  split at h
  · rename_i v r hv
    split_ifs at h
    simp only [Option.some.injEq] at h
    exact ((parseJ_defined _).1 _ _ _ hv).2 items h
  · simp at h


/-! ## Loading and saving the items -/

/-- C1, as stated, fails: the stored texts `[1,2]` and `[{}]` are JSON arrays whose
elements are not objects with the five fields, yet `loadTodos` returns two items
for the first and one item for the second instead of the empty list. -/
theorem loadTodos_keeps_malformed_elements :
    jsonParse blobNumbers = some (JVal.arr [JVal.num 1 0, JVal.num 2 0]) ∧
    StorageManager.loadTodos ⟨some blobNumbers, none⟩ = Except.ok [blankTodo, blankTodo] ∧
    StorageManager.loadTodos ⟨some blobNumbers, none⟩ ≠ Except.ok [] ∧
    jsonParse blobEmptyObject = some (JVal.arr [JVal.obj []]) ∧
    StorageManager.loadTodos ⟨some blobEmptyObject, none⟩ = Except.ok [blankTodo] ∧
    StorageManager.loadTodos ⟨some blobEmptyObject, none⟩ ≠ Except.ok [] := by
  have h1 : StorageManager.loadTodos ⟨some blobNumbers, none⟩ =
      Except.ok [blankTodo, blankTodo] := rfl
  have h2 : StorageManager.loadTodos ⟨some blobEmptyObject, none⟩ = Except.ok [blankTodo] := rfl
  refine ⟨rfl, h1, ?_, rfl, h2, ?_⟩
  · rw [h1]; simp
  · rw [h2]; simp

/-- C1 (amended): for every content of the items key `loadTodos` returns without
raising.  It returns the empty list when the key is absent and when the stored
text is empty, is not valid JSON, is valid JSON that is not an array, or is an
array with a `null` element.  For an array without `null` elements it returns
one item per element, each the result of the `Todo` constructor on the
element's five properties (missing ones read as `undefined`). -/
theorem loadTodos_total (ls : LocalStorage) :
    (∃ ts, StorageManager.loadTodos ls = Except.ok ts) ∧
    (ls.colorful_todos = none → StorageManager.loadTodos ls = Except.ok []) ∧
    (∀ raw, ls.colorful_todos = some raw →
      (raw = [] ∨ jsonParse raw = none ∨
        (∃ v, jsonParse raw = some v ∧ ∀ items, v ≠ JVal.arr items) ∨
        (∃ items, jsonParse raw = some (JVal.arr items) ∧ JVal.null ∈ items)) →
      StorageManager.loadTodos ls = Except.ok []) ∧
    (∀ raw items, ls.colorful_todos = some raw → raw ≠ [] →
      jsonParse raw = some (JVal.arr items) → JVal.null ∉ items →
      ∃ ts, StorageManager.loadTodos ls = Except.ok ts ∧ ts.length = items.length ∧
        List.Forall₂ (fun o t => hydrate o = Except.ok t) items ts) := by
  refine ⟨?_, ?_, ?_, ?_⟩
  · unfold StorageManager.loadTodos
    cases ls.colorful_todos with
    | none => exact ⟨[], rfl⟩
    | some raw =>
      dsimp only
      split_ifs
      · exact ⟨[], rfl⟩
      · cases StorageManager.loadTodosTry raw with
        | ok ts => exact ⟨ts, rfl⟩
        | error e => exact ⟨[], rfl⟩
  · intro h
    simp [StorageManager.loadTodos, h]
  · intro raw hraw hbad
    unfold StorageManager.loadTodos
    rw [hraw]
    dsimp only
    split_ifs with he
    · rfl
    · have herr : ∃ e, StorageManager.loadTodosTry raw = Except.error e := by
        unfold StorageManager.loadTodosTry
        rcases hbad with h | h | ⟨v, hv, hna⟩ | ⟨items, hi, hnull⟩
        · exact absurd h he
        · rw [h]; exact ⟨_, rfl⟩
        · rw [hv]
          cases v with
          | arr l => exact absurd rfl (hna l)
          | undefined => exact ⟨_, rfl⟩
          | null => exact ⟨_, rfl⟩
          | bool b => exact ⟨_, rfl⟩
          | num m s => exact ⟨_, rfl⟩
          | str s => exact ⟨_, rfl⟩
          | obj l => exact ⟨_, rfl⟩
        · rw [hi]
          exact hydrateAll_error_of_null items hnull
      obtain ⟨e, he2⟩ := herr
      rw [he2]
  · intro raw items hraw hne hp hnn
    obtain ⟨ts, h1, h2⟩ := hydrateAll_ok_of_no_null items
      (fun o ho e => hnn (e ▸ ho)) (jsonParse_arr_defined raw items hp)
    refine ⟨ts, ?_, h2.length_eq.symm, h2⟩
    simp [StorageManager.loadTodos, hraw, hne, StorageManager.loadTodosTry, hp, h1]

/-- Witness of C1 (amended): the texts `not json`, `{}`, `null` and `[null]` give
the empty list, an absent key gives the empty list, and `[1,2]` gives two items. -/
theorem loadTodos_total_witness :
    StorageManager.loadTodos ⟨some blobNotJson, none⟩ = Except.ok [] ∧
    StorageManager.loadTodos ⟨some blobBraces, none⟩ = Except.ok [] ∧
    StorageManager.loadTodos ⟨some blobNull, none⟩ = Except.ok [] ∧
    StorageManager.loadTodos ⟨some blobNullElement, none⟩ = Except.ok [] ∧
    StorageManager.loadTodos ⟨none, none⟩ = Except.ok [] ∧
    (∃ ts, StorageManager.loadTodos ⟨some blobNumbers, none⟩ = Except.ok ts ∧ ts.length = 2 ∧
      List.Forall₂ (fun o t => hydrate o = Except.ok t) [JVal.num 1 0, JVal.num 2 0] ts) :=
  ⟨(loadTodos_total ⟨some blobNotJson, none⟩).2.2.1 blobNotJson rfl (Or.inr (Or.inl rfl)),
   (loadTodos_total ⟨some blobBraces, none⟩).2.2.1 blobBraces rfl
     (Or.inr (Or.inr (Or.inl ⟨JVal.obj [], rfl, fun _ h => JVal.noConfusion h⟩))),
   (loadTodos_total ⟨some blobNull, none⟩).2.2.1 blobNull rfl
     (Or.inr (Or.inr (Or.inl ⟨JVal.null, rfl, fun _ h => JVal.noConfusion h⟩))),
   (loadTodos_total ⟨some blobNullElement, none⟩).2.2.1 blobNullElement rfl
     (Or.inr (Or.inr (Or.inr ⟨[JVal.null], rfl, List.mem_singleton.mpr rfl⟩))),
   (loadTodos_total ⟨none, none⟩).2.1 rfl,
   (loadTodos_total ⟨some blobNumbers, none⟩).2.2.2 blobNumbers [JVal.num 1 0, JVal.num 2 0]
     rfl (by decide) rfl (by simp)⟩


/-- C2: round trip.  For every list of well-formed items (the empty list
included) and every previous content of the storage, `saveTodos(items)` followed
by `loadTodos()` returns without raising a list of the same length whose
elements have, position by position, the same `id`, `title`, `description`,
`completed` and `order`: it returns `items` itself. -/
theorem saveTodos_loadTodos_round_trip (ls : LocalStorage) (items : List Todo)
    (hwf : ∀ t ∈ items, t.wellFormed = true) :
    StorageManager.loadTodos (StorageManager.saveTodos ls items) = Except.ok items ∧
    ∃ ts, StorageManager.loadTodos (StorageManager.saveTodos ls items) = Except.ok ts ∧
      ts.length = items.length ∧
      List.Forall₂ (fun t u => t.id = u.id ∧ t.title = u.title ∧
        t.description = u.description ∧ t.completed = u.completed ∧ t.order = u.order)
        ts items := by
  have h := loadTodos_saveTodos ls items hwf
  refine ⟨h, items, h, rfl, ?_⟩
  exact List.forall₂_same.mpr (fun _ _ => ⟨rfl, rfl, rfl, rfl, rfl⟩)

/-- Witness of C2: the round trip of the two example items and of the empty list. -/
theorem saveTodos_loadTodos_round_trip_witness :
    (∀ t ∈ [todoMilk, todoDog], t.wellFormed = true) ∧
    StorageManager.loadTodos (StorageManager.saveTodos ⟨none, none⟩ [todoMilk, todoDog]) =
      Except.ok [todoMilk, todoDog] ∧
    StorageManager.loadTodos (StorageManager.saveTodos ⟨some blobNotJson, none⟩ []) =
      Except.ok [] :=
  ⟨by decide,
   (saveTodos_loadTodos_round_trip ⟨none, none⟩ [todoMilk, todoDog] (by decide)).1,
   (saveTodos_loadTodos_round_trip ⟨some blobNotJson, none⟩ [] (by simp)).1⟩

/-! ## The theme -/

/-- C8, as stated, fails: with the text `blue` under the theme key, `loadTheme`
returns `blue`, which is neither `light` nor `dark`. -/
theorem loadTheme_returns_unrecognized :
    StorageManager.loadTheme ⟨none, some blue⟩ = blue ∧
    blue ≠ StorageManager.light ∧ blue ≠ StorageManager.dark := by
  decide

/-- C8 (amended): `loadTheme` returns `light` when the theme key is absent or
holds the empty text, and otherwise returns the stored text unchanged, whatever
it is.  Hence it returns `dark` exactly when the stored value is `dark`, and
`light` exactly when the key is absent, empty, or holds `light`. -/
theorem loadTheme_spec (ls : LocalStorage) :
    (ls.colorful_theme = none → StorageManager.loadTheme ls = StorageManager.light) ∧
    (ls.colorful_theme = some [] → StorageManager.loadTheme ls = StorageManager.light) ∧
    (∀ t, ls.colorful_theme = some t → t ≠ [] → StorageManager.loadTheme ls = t) ∧
    (StorageManager.loadTheme ls = StorageManager.dark ↔
      ls.colorful_theme = some StorageManager.dark) ∧
    (StorageManager.loadTheme ls = StorageManager.light ↔
      (ls.colorful_theme = none ∨ ls.colorful_theme = some [] ∨
        ls.colorful_theme = some StorageManager.light)) := by
  have hd : StorageManager.dark ≠ [] := by decide
  have hl : StorageManager.light ≠ [] := by decide
  have hld : StorageManager.light ≠ StorageManager.dark := by decide
  unfold StorageManager.loadTheme
  cases h : ls.colorful_theme with
  | none => simp [hld]
  | some t =>
    by_cases ht : t = []
    · subst ht
      simp [hld, hd.symm]
    · simp [ht]

/-- Witness of C8 (amended): the stored texts `dark` and `blue` are returned as
they are, an absent key gives `light`. -/
theorem loadTheme_spec_witness :
    StorageManager.loadTheme ⟨none, some StorageManager.dark⟩ = StorageManager.dark ∧
    StorageManager.loadTheme ⟨none, some blue⟩ = blue ∧
    StorageManager.loadTheme ⟨none, none⟩ = StorageManager.light :=
  ⟨(loadTheme_spec ⟨none, some StorageManager.dark⟩).2.2.1 StorageManager.dark rfl (by decide),
   (loadTheme_spec ⟨none, some blue⟩).2.2.1 blue rfl (by decide),
   (loadTheme_spec ⟨none, none⟩).1 rfl⟩

/-! ## The filter -/

/-- C7, as stated, fails: a click on an element of class `filter` whose
`data-filter` is `bogus` sets `state.filter` to `bogus`, which is none of the
three allowed values. -/
theorem filterClick_accepts_unknown_value :
    demoState.filter = filterAll ∧
    (filterClickHandler demoState true (some bogus)).filter = bogus ∧
    bogus ≠ filterAll ∧ bogus ≠ filterActive ∧ bogus ≠ filterCompleted := by
  decide

/-- C7 (amended): the filter-click handler ignores a click only when the clicked
element lacks the class `filter` or its `data-filter` value is absent or empty:
the state is then unchanged.  Every other value, recognised or not, becomes
`state.filter`; the items and the stored data are unchanged. -/
theorem filterClick_sets_any_nonempty_value (s : State) (hasClass : Bool)
    (dataFilter : Option Text) :
    ((hasClass = false ∨ dataFilter = none ∨ dataFilter = some []) →
      filterClickHandler s hasClass dataFilter = s) ∧
    (∀ f, hasClass = true → dataFilter = some f → f ≠ [] →
      (filterClickHandler s hasClass dataFilter).filter = f ∧
      (filterClickHandler s hasClass dataFilter).todos = s.todos ∧
      (filterClickHandler s hasClass dataFilter).heap = s.heap ∧
      (filterClickHandler s hasClass dataFilter).storage = s.storage) := by
  refine ⟨?_, ?_⟩
  · intro h
    unfold filterClickHandler
    rcases h with h | h | h
    · simp [h]
    · simp [h]
    · simp [h]
  · intro f hc hd hne
    unfold filterClickHandler
    simp only [hc, hd, hne, if_false, Bool.true_eq_false]
    obtain ⟨h1, h2, h3, _, h5⟩ := renderTodos_fields { s with filter := f }
    exact ⟨h3, h2, h1, h5⟩

/-- Witness of C7 (amended): `completed` and `bogus` are both taken over, an
empty value is ignored. -/
theorem filterClick_sets_any_nonempty_value_witness :
    (filterClickHandler demoState true (some filterCompleted)).filter = filterCompleted ∧
    (filterClickHandler demoState true (some bogus)).filter = bogus ∧
    filterClickHandler demoState true (some []) = demoState :=
  ⟨((filterClick_sets_any_nonempty_value demoState true (some filterCompleted)).2
      filterCompleted rfl rfl (by decide)).1,
   ((filterClick_sets_any_nonempty_value demoState true (some bogus)).2
      bogus rfl rfl (by decide)).1,
   (filterClick_sets_any_nonempty_value demoState true (some [])).1 (Or.inr (Or.inr rfl))⟩


/-! ## Example of a render -/

/-- Witness of C6: the example state, rendered under the filter `all`. -/
theorem renderTodos_displays_filtered_sorted_witness :
    demoState.listEl = some [⟨0, false⟩, ⟨1, true⟩] ∧
    (∀ a ∈ demoState.todos, (readTodo demoState.heap a).order.isInt = true) ∧
    (renderTodos demoState).shown.Perm demoState.todos ∧
    ((renderTodos demoState).shown.map
      (fun a => (readTodo demoState.heap a).order.toInt)).Sorted (· ≤ ·) ∧
    (renderTodos demoState).todos = demoState.todos :=
  ⟨rfl, by decide,
   (renderTodos_displays_filtered_sorted demoState _ rfl (by decide)).2.2.1 rfl,
   (renderTodos_displays_filtered_sorted demoState _ rfl (by decide)).2.2.2.1,
   (renderTodos_displays_filtered_sorted demoState _ rfl (by decide)).2.2.2.2.1⟩

/-! ## The heap -/

theorem readTodo_append_lt (heap : List Todo) (t : Todo) (a : Nat) (h : a < heap.length) :
    readTodo (heap ++ [t]) a = readTodo heap a := by
  unfold readTodo
  rw [List.getD_eq_getElem?_getD, List.getD_eq_getElem?_getD, List.getElem?_append_left h]

theorem readTodo_append_length (heap : List Todo) (t : Todo) :
    readTodo (heap ++ [t]) heap.length = t := by
  unfold readTodo
  rw [List.getD_eq_getElem?_getD]
  simp

theorem readTodo_of_le (heap : List Todo) (a : Nat) (h : heap.length ≤ a) :
    readTodo heap a = default := by
  unfold readTodo
  rw [List.getD_eq_getElem?_getD, List.getElem?_eq_none h]
  rfl

theorem lt_of_wellFormed (heap : List Todo) (a : Nat)
    (h : (readTodo heap a).wellFormed = true) : a < heap.length := by
  by_contra hlt
  rw [readTodo_of_le heap a (by omega)] at h
  exact absurd h (by decide)

theorem readTodo_set (heap : List Todo) (a x : Nat) (t : Todo) :
    readTodo (heap.set a t) x = if x = a ∧ a < heap.length then t else readTodo heap x := by
  unfold readTodo
  rw [List.getD_eq_getElem?_getD, List.getD_eq_getElem?_getD, List.getElem?_set]
  by_cases hx : a = x
  · subst hx
    by_cases hl : a < heap.length
    · simp [hl]
    · simp [hl, List.getElem?_eq_none (not_lt.mp hl)]
  · have hx2 : ¬ x = a := fun e => hx e.symm
    simp [hx, hx2]

/-! ## Persistence -/

theorem save_fields (s : State) :
    s.save.heap = s.heap ∧ s.save.todos = s.todos ∧ s.save.filter = s.filter ∧
      s.save.listEl = s.listEl ∧ s.save.items = s.items :=
  ⟨rfl, rfl, rfl, rfl, rfl⟩

theorem save_persisted (s : State) (hwf : ∀ t ∈ s.items, t.wellFormed = true) :
    StorageManager.loadTodos s.save.storage = Except.ok s.items :=
  loadTodos_saveTodos s.storage s.items hwf

theorem renderTodos_items (s : State) : (renderTodos s).items = s.items := by
  obtain ⟨h1, h2, _⟩ := renderTodos_fields s
  unfold State.items
  rw [h1, h2]

theorem renderTodoItem_items (s : State) (a : Nat) : (renderTodoItem s a).items = s.items := by
  obtain ⟨h1, h2, _⟩ := renderTodoItem_fields s a
  unfold State.items
  rw [h1, h2]


theorem persisted_of (X s2 : State) (h1 : s2.storage = X.save.storage)
    (h2 : s2.items = X.items) (hwf : ∀ t ∈ X.items, t.wellFormed = true) :
    StorageManager.loadTodos s2.storage = Except.ok s2.items ∧
      ∀ t ∈ s2.items, t.wellFormed = true := by
  rw [h1, h2]
  exact ⟨save_persisted X hwf, hwf⟩

theorem mem_items (s : State) (t : Todo) :
    t ∈ s.items ↔ ∃ a ∈ s.todos, readTodo s.heap a = t := by
  unfold State.items
  exact List.mem_map

theorem newTodo_wellFormed (now : Int) (title description : Text) (n : Nat) :
    (Todo.new (JVal.num now 0) (JVal.str title) (JVal.str description) (JVal.bool false)
      (JVal.num (n : Int) 0)).wellFormed = true := rfl

theorem submitHandler_eq (s : State) (titleValue descValue : Text) (now : Int)
    (h : trim titleValue ≠ []) :
    submitHandler s titleValue descValue now =
      renderTodoItem
        (State.save { s with
          heap := s.heap ++ [Todo.new (JVal.num now 0) (JVal.str (trim titleValue))
            (JVal.str (trim descValue)) (JVal.bool false) (JVal.num (s.todos.length : Int) 0)]
          todos := sortByOrder
            (s.heap ++ [Todo.new (JVal.num now 0) (JVal.str (trim titleValue))
              (JVal.str (trim descValue)) (JVal.bool false) (JVal.num (s.todos.length : Int) 0)])
            (s.todos ++ [s.heap.length]) })
        s.heap.length := by
  unfold submitHandler
  simp only [h, if_false]

theorem submitHandler_persisted (s : State) (hwf : ∀ t ∈ s.items, t.wellFormed = true)
    (titleValue descValue : Text) (now : Int) (h : trim titleValue ≠ []) :
    StorageManager.loadTodos (submitHandler s titleValue descValue now).storage =
        Except.ok (submitHandler s titleValue descValue now).items ∧
      ∀ t ∈ (submitHandler s titleValue descValue now).items, t.wellFormed = true := by
  rw [submitHandler_eq s titleValue descValue now h]
  refine persisted_of _ _ (renderTodoItem_fields _ _).2.2.2.2 (renderTodoItem_items _ _) ?_
  intro t ht
  rw [mem_items] at ht
  obtain ⟨x, hx, rfl⟩ := ht
  simp only [State.save] at hx ⊢
  rw [mem_sortByOrder, List.mem_append, List.mem_singleton] at hx
  rcases hx with hx | hx
  · have hw := hwf _ ((mem_items s _).mpr ⟨x, hx, rfl⟩)
    rw [readTodo_append_lt _ _ _ (lt_of_wellFormed _ _ hw)]
    exact hw
  · rw [hx, readTodo_append_length]
    exact newTodo_wellFormed _ _ _ _

theorem changeHandler_persisted (s : State) (hwf : ∀ t ∈ s.items, t.wellFormed = true)
    (li : Li) (checked : Bool) :
    StorageManager.loadTodos (changeHandler s li checked).storage =
        Except.ok (changeHandler s li checked).items ∧
      ∀ t ∈ (changeHandler s li checked).items, t.wellFormed = true := by
  unfold changeHandler
  refine persisted_of _ _ (renderTodos_fields _).2.2.2.2 (renderTodos_items _) ?_
  intro t ht
  rw [mem_items] at ht
  obtain ⟨x, hx, rfl⟩ := ht
  simp only at hx ⊢
  have hw := hwf _ ((mem_items s _).mpr ⟨x, hx, rfl⟩)
  rw [readTodo_set]
  split_ifs with hc
  · rw [← hc.1]
    simp only [Todo.wellFormed, Todo.setCompleted, Bool.and_eq_true] at hw ⊢
    exact ⟨⟨⟨hw.1.1.1, hw.1.1.2⟩, rfl⟩, hw.2⟩
  · exact hw

theorem deleteHandler_persisted (s : State) (hwf : ∀ t ∈ s.items, t.wellFormed = true)
    (i : Nat) (li : Li) :
    StorageManager.loadTodos (deleteHandler s i li).storage =
        Except.ok (deleteHandler s i li).items ∧
      ∀ t ∈ (deleteHandler s i li).items, t.wellFormed = true := by
  unfold deleteHandler
  refine persisted_of _ _ rfl rfl ?_
  intro t ht
  rw [mem_items] at ht
  obtain ⟨x, hx, rfl⟩ := ht
  exact hwf _ ((mem_items s _).mpr ⟨x, (List.mem_filter.mp hx).1, rfl⟩)

theorem clearCompletedHandler_persisted (s : State)
    (hwf : ∀ t ∈ s.items, t.wellFormed = true) :
    StorageManager.loadTodos (clearCompletedHandler s).storage =
        Except.ok (clearCompletedHandler s).items ∧
      ∀ t ∈ (clearCompletedHandler s).items, t.wellFormed = true := by
  unfold clearCompletedHandler
  refine persisted_of _ _ (renderTodos_fields _).2.2.2.2 (renderTodos_items _) ?_
  intro t ht
  rw [mem_items] at ht
  obtain ⟨x, hx, rfl⟩ := ht
  exact hwf _ ((mem_items s _).mpr ⟨x, (List.mem_filter.mp hx).1, rfl⟩)

/-- C3: persistence invariant.  For every state whose items are well-formed,
after each mutating handler has completed (the form submit with a title that is
not blank, the checkbox toggle and the delete button of a displayed item, the
clear-completed button) `loadTodos` reads back from storage exactly the items
of `state.todos`, and these items are again well-formed.  A submit with a blank
title is rejected: it changes neither the state nor the storage. -/
theorem persisted_after_each_mutation (s : State)
    (hwf : ∀ t ∈ s.items, t.wellFormed = true) :
    (∀ titleValue descValue now, trim titleValue = [] →
      submitHandler s titleValue descValue now = s) ∧
    (∀ titleValue descValue now, trim titleValue ≠ [] →
      StorageManager.loadTodos (submitHandler s titleValue descValue now).storage =
          Except.ok (submitHandler s titleValue descValue now).items ∧
        ∀ t ∈ (submitHandler s titleValue descValue now).items, t.wellFormed = true) ∧
    (∀ lis i li, s.listEl = some lis → lis.get? i = some li →
      StorageManager.loadTodos (toggleClick s i).storage = Except.ok (toggleClick s i).items ∧
        ∀ t ∈ (toggleClick s i).items, t.wellFormed = true) ∧
    (∀ lis i li, s.listEl = some lis → lis.get? i = some li →
      StorageManager.loadTodos (deleteClick s i).storage = Except.ok (deleteClick s i).items ∧
        ∀ t ∈ (deleteClick s i).items, t.wellFormed = true) ∧
    (StorageManager.loadTodos (clearCompletedHandler s).storage =
        Except.ok (clearCompletedHandler s).items ∧
      ∀ t ∈ (clearCompletedHandler s).items, t.wellFormed = true) := by
  refine ⟨?_, ?_, ?_, ?_, clearCompletedHandler_persisted s hwf⟩
  · intro titleValue descValue now h
    unfold submitHandler
    simp only [h, if_true]
  · intro titleValue descValue now h
    exact submitHandler_persisted s hwf titleValue descValue now h
  · intro lis i li hl hi
    have e : toggleClick s i = changeHandler s li (!li.checked) := by
      unfold toggleClick
      rw [hl]
      simp only [hi]
    rw [e]
    exact changeHandler_persisted s hwf li _
  · intro lis i li hl hi
    have e : deleteClick s i = deleteHandler s i li := by
      unfold deleteClick
      rw [hl]
      simp only [hi]
    rw [e]
    exact deleteHandler_persisted s hwf i li

/-- Witness of C3: the four mutating handlers on the example state, whose storage
is empty beforehand. -/
theorem persisted_after_each_mutation_witness :
    (∀ t ∈ demoState.items, t.wellFormed = true) ∧
    StorageManager.loadTodos demoState.storage ≠ Except.ok demoState.items ∧
    StorageManager.loadTodos (submitHandler demoState ['x'] [] 5).storage =
      Except.ok (submitHandler demoState ['x'] [] 5).items ∧
    StorageManager.loadTodos (toggleClick demoState 0).storage =
      Except.ok (toggleClick demoState 0).items ∧
    StorageManager.loadTodos (deleteClick demoState 1).storage =
      Except.ok (deleteClick demoState 1).items ∧
    StorageManager.loadTodos (clearCompletedHandler demoState).storage =
      Except.ok (clearCompletedHandler demoState).items :=
  ⟨by decide,
   by simp [demoState, StorageManager.loadTodos, State.items],
   ((persisted_after_each_mutation demoState (by decide)).2.1 ['x'] [] 5 (by decide)).1,
   ((persisted_after_each_mutation demoState (by decide)).2.2.1 _ 0 ⟨0, false⟩ rfl rfl).1,
   ((persisted_after_each_mutation demoState (by decide)).2.2.2.1 _ 1 ⟨1, true⟩ rfl rfl).1,
   (persisted_after_each_mutation demoState (by decide)).2.2.2.2.1⟩


/-! ## Toggling the completion of an item -/

theorem set_readTodo (heap : List Todo) : ∀ a : Nat, heap.set a (readTodo heap a) = heap := by
  induction heap with
  | nil => intro a; rfl
  | cons h t ih =>
    intro a
    cases a with
    | zero => rfl
    | succ n =>
      have e : readTodo (h :: t) (n + 1) = readTodo t n := rfl
      rw [e, List.set_cons_succ, ih n]

theorem toggleClick_eq (s : State) (lis : List Li) (i : Nat) (li : Li)
    (hl : s.listEl = some lis) (hi : lis.get? i = some li) :
    toggleClick s i = changeHandler s li (!li.checked) := by
  unfold toggleClick
  rw [hl]
  simp only [hi]

theorem changeHandler_fields (s : State) (li : Li) (checked : Bool) :
    (changeHandler s li checked).heap =
        s.heap.set li.todo ((readTodo s.heap li.todo).setCompleted (JVal.bool checked)) ∧
      (changeHandler s li checked).todos = s.todos ∧
      (changeHandler s li checked).filter = s.filter := by
  unfold changeHandler
  exact ⟨(renderTodos_fields _).1, (renderTodos_fields _).2.1, (renderTodos_fields _).2.2.1⟩

/-- Every `<li>` left by the `change` listener shows the current flag of its instance. -/
theorem changeHandler_listEl (s : State) (lis : List Li) (hl : s.listEl = some lis)
    (li : Li) (checked : Bool) :
    ∃ lis1, (changeHandler s li checked).listEl = some lis1 ∧
      (∀ x ∈ lis1, x.checked =
        (readTodo (changeHandler s li checked).heap x.todo).completed.truthy) ∧
      (∀ a, a ∈ lis1.map Li.todo ↔ (a ∈ s.todos ∧
        passesFilter s.filter (readTodo (changeHandler s li checked).heap a) = true)) := by
  obtain ⟨g1, _, _⟩ := changeHandler_fields s li checked
  rw [g1]
  unfold changeHandler
  refine ⟨_, renderTodos_listEl _ lis hl, ?_, ?_⟩
  · intro x hx
    rw [List.mem_map] at hx
    obtain ⟨a, _, rfl⟩ := hx
    rfl
  · intro a
    rw [List.map_map]
    simp only [Function.comp_def, List.map_id', mem_sortByOrder, List.mem_filter]
    rfl

/-- C9: toggling the completion of a displayed item twice is an involution.  For
every state and every displayed item whose `completed` flag is a boolean `b`
shown by its checkbox, the first toggle writes `!b` into that flag and touches
nothing else (no other instance, no other field, not the array `state.todos`);
after a second toggle of the same item the instances and `state.todos` are
exactly what they were, so the flag is `b` again.  Under the filter `all` the
item is still displayed after the first toggle, so the second toggle can
happen. -/
theorem toggle_twice_is_identity (s : State) (lis : List Li) (i : Nat) (li : Li) (b : Bool)
    (hl : s.listEl = some lis) (hi : lis.get? i = some li)
    (hb : (readTodo s.heap li.todo).completed = JVal.bool b) (hc : li.checked = b) :
    (toggleClick s i).todos = s.todos ∧
    readTodo (toggleClick s i).heap li.todo =
      (readTodo s.heap li.todo).setCompleted (JVal.bool (!b)) ∧
    (∀ x, x ≠ li.todo → readTodo (toggleClick s i).heap x = readTodo s.heap x) ∧
    (∀ lis1 j li1, (toggleClick s i).listEl = some lis1 → lis1.get? j = some li1 →
      li1.todo = li.todo →
      (toggleClick (toggleClick s i) j).heap = s.heap ∧
      (toggleClick (toggleClick s i) j).todos = s.todos ∧
      (toggleClick (toggleClick s i) j).items = s.items) ∧
    (s.filter = filterAll → li.todo ∈ s.todos →
      ∃ lis1 j li1, (toggleClick s i).listEl = some lis1 ∧ lis1.get? j = some li1 ∧
        li1.todo = li.todo) := by
  have hlt : li.todo < s.heap.length := by
    by_contra hge
    rw [readTodo_of_le s.heap li.todo (by omega)] at hb
    exact JVal.noConfusion hb
  rw [toggleClick_eq s lis i li hl hi, hc]
  obtain ⟨g1, g2, g3⟩ := changeHandler_fields s li (!b)
  obtain ⟨lis1, k1, k2, k3⟩ := changeHandler_listEl s lis hl li (!b)
  have hread : readTodo (changeHandler s li (!b)).heap li.todo =
      (readTodo s.heap li.todo).setCompleted (JVal.bool (!b)) := by
    rw [g1, readTodo_set, if_pos ⟨rfl, hlt⟩]
  refine ⟨g2, hread, ?_, ?_, ?_⟩
  · intro x hx
    rw [g1, readTodo_set, if_neg (fun h => hx h.1)]
  · intro lis2 j li1 hl2 hj htodo
    have hm : li1 ∈ lis1 := by
      rw [k1] at hl2
      rw [Option.some.inj hl2]
      exact List.mem_iff_get?.mpr ⟨j, hj⟩
    have hchk : li1.checked = !b := by
      rw [k2 li1 hm, htodo, hread]
      rfl
    rw [toggleClick_eq _ lis2 j li1 hl2 hj, hchk, Bool.not_not]
    obtain ⟨q1, q2, _⟩ := changeHandler_fields (changeHandler s li (!b)) li1 b
    have hheap : (changeHandler (changeHandler s li (!b)) li1 b).heap = s.heap := by
      rw [q1, htodo, hread, g1, List.set_set]
      have e : ((readTodo s.heap li.todo).setCompleted (JVal.bool (!b))).setCompleted
          (JVal.bool b) = readTodo s.heap li.todo := by
        cases ht : readTodo s.heap li.todo with
        | mk i1 t1 d1 c1 o1 =>
          rw [ht] at hb
          simp only at hb
          rw [hb]
          rfl
      rw [e]
      exact set_readTodo s.heap li.todo
    have htodos : (changeHandler (changeHandler s li (!b)) li1 b).todos = s.todos := by
      rw [q2, g2]
    refine ⟨hheap, htodos, ?_⟩
    unfold State.items
    rw [hheap, htodos]
  · intro hf hmem
    have hin : li.todo ∈ lis1.map Li.todo := by
      rw [k3]
      refine ⟨hmem, ?_⟩
      have hne1 : filterAll ≠ filterActive := by decide
      have hne2 : filterAll ≠ filterCompleted := by decide
      simp [passesFilter, hf, hne1, hne2]
    rw [List.mem_map] at hin
    obtain ⟨li1, hli1, ht1⟩ := hin
    obtain ⟨j, hj⟩ := List.mem_iff_get?.mp hli1
    exact ⟨lis1, j, li1, k1, hj, ht1⟩

/-- Witness of C9: the first item of the example state, toggled twice. -/
theorem toggle_twice_is_identity_witness :
    demoState.listEl = some [⟨0, false⟩, ⟨1, true⟩] ∧
    (readTodo demoState.heap 0).completed = JVal.bool false ∧
    (toggleClick demoState 0).listEl = some [⟨0, true⟩, ⟨1, true⟩] ∧
    (toggleClick (toggleClick demoState 0) 0).heap = demoState.heap ∧
    (toggleClick (toggleClick demoState 0) 0).todos = demoState.todos :=
  ⟨rfl, rfl, rfl,
   ((toggle_twice_is_identity demoState _ 0 ⟨0, false⟩ false rfl rfl rfl rfl).2.2.2.1
      [⟨0, true⟩, ⟨1, true⟩] 0 ⟨0, true⟩ rfl rfl rfl).1,
   ((toggle_twice_is_identity demoState _ 0 ⟨0, false⟩ false rfl rfl rfl rfl).2.2.2.1
      [⟨0, true⟩, ⟨1, true⟩] 0 ⟨0, true⟩ rfl rfl rfl).2.1⟩


/-! ## Adding items -/

theorem orderLe_num (i j : Nat) :
    orderLe (JVal.num (i : Int) 0) (JVal.num (j : Int) 0) = true ↔ i ≤ j := by
  simp [orderLe, toNumber]

/-- A list whose `order` values are `0, 1, 2, …` is left as it is by the sort. -/
theorem sortByOrder_eq_self (heap : List Todo) (l : List Nat)
    (h : l.map (fun a => (readTodo heap a).order) =
      (List.range l.length).map (fun (i : Nat) => JVal.num (i : Int) 0)) :
    sortByOrder heap l = l := by
  unfold sortByOrder
  apply List.Sorted.insertionSort_eq
  unfold List.Sorted
  have hp : List.Pairwise (fun u v => orderLe u v = true)
      (l.map (fun a => (readTodo heap a).order)) := by
    rw [h, List.pairwise_map]
    exact (List.pairwise_lt_range l.length).imp (fun {i j} hij => (orderLe_num i j).mpr (le_of_lt hij))
  rw [List.pairwise_map] at hp
  exact hp

theorem map_readTodo_append (heap : List Todo) (t : Todo) (l : List Nat)
    (h : ∀ a ∈ l, a < heap.length) :
    l.map (readTodo (heap ++ [t])) = l.map (readTodo heap) := by
  apply List.map_congr_left
  intro a ha
  exact readTodo_append_lt heap t a (h a ha)

/-- One add on a state whose `order` values are `0, 1, 2, …`: the new instance
goes to the end of `state.todos` and of the displayed list. -/
theorem submitHandler_step (s : State) (x : AddInput)
    (hI1 : s.items.map Todo.order =
      (List.range s.todos.length).map (fun (i : Nat) => JVal.num (i : Int) 0))
    (hI2 : ∀ a ∈ s.todos, a < s.heap.length) (hx : trim x.titleValue ≠ []) :
    (step s x.event).todos = s.todos ++ [s.heap.length] ∧
    (step s x.event).heap = s.heap ++ [x.item s.todos.length] ∧
    (step s x.event).filter = s.filter ∧
    (step s x.event).items = s.items ++ [x.item s.todos.length] ∧
    (∀ lis, s.listEl = some lis → s.filter = filterAll →
      (step s x.event).listEl = some (lis ++ [⟨s.heap.length, false⟩])) := by
  have hstep : step s x.event = submitHandler s x.titleValue x.descValue x.now := rfl
  rw [hstep, submitHandler_eq s _ _ _ hx]
  have hitems : (s.todos ++ [s.heap.length]).map (readTodo (s.heap ++ [x.item s.todos.length])) =
      s.items ++ [x.item s.todos.length] := by
    rw [List.map_append, map_readTodo_append _ _ _ hI2]
    simp [State.items, readTodo_append_length]
  have hsorted : sortByOrder (s.heap ++ [x.item s.todos.length]) (s.todos ++ [s.heap.length]) =
      s.todos ++ [s.heap.length] := by
    apply sortByOrder_eq_self
    have e : (s.todos ++ [s.heap.length]).map
        (fun a => (readTodo (s.heap ++ [x.item s.todos.length]) a).order) =
        ((s.todos ++ [s.heap.length]).map
          (readTodo (s.heap ++ [x.item s.todos.length]))).map Todo.order := by
      rw [List.map_map]; rfl
    rw [e, hitems, List.map_append, hI1, List.length_append, List.length_singleton,
      List.range_succ, List.map_append]
    rfl
  have hx2 : (Todo.new (JVal.num x.now 0) (JVal.str (trim x.titleValue))
      (JVal.str (trim x.descValue)) (JVal.bool false) (JVal.num (s.todos.length : Int) 0)) =
      x.item s.todos.length := rfl
  rw [hx2, hsorted]
  obtain ⟨f1, f2, f3, _, _⟩ := renderTodoItem_fields
    (State.save { s with heap := s.heap ++ [x.item s.todos.length],
                         todos := s.todos ++ [s.heap.length] }) s.heap.length
  refine ⟨f2, f1, f3, ?_, ?_⟩
  · rw [renderTodoItem_items]
    exact hitems
  · intro lis hl hf
    have hne1 : filterAll ≠ filterActive := by decide
    have hne2 : filterAll ≠ filterCompleted := by decide
    have hv := renderTodoItem_visible
      (State.save { s with heap := s.heap ++ [x.item s.todos.length],
                           todos := s.todos ++ [s.heap.length] })
      s.heap.length lis hl (by simp [State.save, passesFilter, hf, hne1, hne2])
    rw [hv]
    simp only [State.save, readTodo_append_length]
    rfl


theorem run_adds (adds : List AddInput) : ∀ s : State,
    s.items.map Todo.order =
      (List.range s.todos.length).map (fun (i : Nat) => JVal.num (i : Int) 0) →
    (∀ a ∈ s.todos, a < s.heap.length) →
    (∀ x ∈ adds, trim x.titleValue ≠ []) →
    (run s (adds.map AddInput.event)).todos =
        s.todos ++ List.range' s.heap.length adds.length ∧
    (run s (adds.map AddInput.event)).items =
        s.items ++ (adds.enumFrom s.todos.length).map (fun p => p.2.item p.1) ∧
    (run s (adds.map AddInput.event)).filter = s.filter ∧
    (∀ lis, s.listEl = some lis → s.filter = filterAll →
      (run s (adds.map AddInput.event)).listEl =
        some (lis ++ (List.range' s.heap.length adds.length).map (fun a => ⟨a, false⟩))) ∧
    ((run s (adds.map AddInput.event)).items.map Todo.order =
      (List.range (run s (adds.map AddInput.event)).todos.length).map
        (fun (i : Nat) => JVal.num (i : Int) 0)) := by
  induction adds with
  | nil =>
    intro s hI1 _ _
    refine ⟨by simp [run], by simp [run], rfl, ?_, hI1⟩
    intro lis hl _
    simp [run, hl]
  | cons x xs ih =>
    intro s hI1 hI2 hne
    obtain ⟨t1, t2, t3, t4, t5⟩ :=
      submitHandler_step s x hI1 hI2 (hne x (List.mem_cons_self _ _))
    have hrun : run s ((x :: xs).map AddInput.event) =
        run (step s x.event) (xs.map AddInput.event) := rfl
    have hJ1 : (step s x.event).items.map Todo.order =
        (List.range (step s x.event).todos.length).map
          (fun (i : Nat) => JVal.num (i : Int) 0) := by
      rw [t4, t1, List.map_append, hI1, List.length_append, List.length_singleton,
        List.range_succ, List.map_append]
      rfl
    have hJ2 : ∀ a ∈ (step s x.event).todos, a < (step s x.event).heap.length := by
      intro a ha
      rw [t1, List.mem_append, List.mem_singleton] at ha
      rw [t2, List.length_append, List.length_singleton]
      rcases ha with ha | ha
      · exact Nat.lt_succ_of_lt (hI2 a ha)
      · omega
    obtain ⟨r1, r2, r3, r4, r5⟩ := ih (step s x.event) hJ1 hJ2
      (fun y hy => hne y (List.mem_cons_of_mem _ hy))
    rw [hrun]
    refine ⟨?_, ?_, r3.trans t3, ?_, r5⟩
    · rw [r1, t1, t2, List.length_append, List.length_singleton, List.length_cons,
        List.range'_succ, List.append_assoc]
      rfl
    · rw [r2, t4, t1, List.length_append, List.length_singleton, List.enumFrom_cons,
        List.map_cons, List.append_assoc]
      rfl
    · intro lis hl hf
      rw [r4 _ (t5 lis hl hf) (t3.trans hf), t2, List.length_append, List.length_singleton,
        List.length_cons, List.range'_succ, List.map_cons, List.append_assoc]
      rfl

/-- C4: starting from an empty list, after any sequence of `n` adds whose titles
are not blank, `state.todos` has exactly `n` items; the `k`-th item added is
the instance created with `completed = false` and `order = k`, the item count
at its insertion; and, when the page starts with an empty list element under the
filter `all`, the displayed items are the items of `state.todos` in ascending
`order`, the same list a full `renderTodos` produces. -/
theorem adds_from_empty (s : State) (adds : List AddInput) (h0 : s.todos = [])
    (hne : ∀ x ∈ adds, trim x.titleValue ≠ []) :
    (run s (adds.map AddInput.event)).todos.length = adds.length ∧
    (run s (adds.map AddInput.event)).items = adds.enum.map (fun p => p.2.item p.1) ∧
    (∀ k t, (run s (adds.map AddInput.event)).items.get? k = some t →
      t.completed = JVal.bool false ∧ t.order = JVal.num (k : Int) 0) ∧
    ((run s (adds.map AddInput.event)).items.map (fun t => t.order.toInt)).Sorted (· ≤ ·) ∧
    (s.listEl = some [] → s.filter = filterAll →
      (run s (adds.map AddInput.event)).shown = (run s (adds.map AddInput.event)).todos ∧
      (renderTodos (run s (adds.map AddInput.event))).shown =
        (run s (adds.map AddInput.event)).shown ∧
      ((run s (adds.map AddInput.event)).shown.map
        (fun a => (readTodo (run s (adds.map AddInput.event)).heap a).order.toInt)).Sorted
          (· ≤ ·)) := by
  have hI1 : s.items.map Todo.order =
      (List.range s.todos.length).map (fun (i : Nat) => JVal.num (i : Int) 0) := by
    simp [State.items, h0]
  have hI2 : ∀ a ∈ s.todos, a < s.heap.length := by
    intro a ha
    rw [h0] at ha
    simp at ha
  obtain ⟨r1, r2, r3, r4, r5⟩ := run_adds adds s hI1 hI2 hne
  have hitems0 : s.items = [] := by simp [State.items, h0]
  rw [h0, List.nil_append] at r1
  rw [hitems0, List.nil_append, h0, List.length_nil] at r2
  have hlen : (run s (adds.map AddInput.event)).todos.length = adds.length := by
    rw [r1, List.length_range']
  have hord : (run s (adds.map AddInput.event)).items.map (fun t => t.order.toInt) =
      (List.range adds.length).map (fun (i : Nat) => (i : Int)) := by
    have e : (run s (adds.map AddInput.event)).items.map (fun t => t.order.toInt) =
        ((run s (adds.map AddInput.event)).items.map Todo.order).map JVal.toInt := by
      rw [List.map_map]; rfl
    rw [e, r5, hlen, List.map_map]
    rfl
  have hsorted : ((run s (adds.map AddInput.event)).items.map
      (fun t => t.order.toInt)).Sorted (· ≤ ·) := by
    rw [hord]
    unfold List.Sorted
    rw [List.pairwise_map]
    exact (List.pairwise_lt_range adds.length).imp
      (fun {i j} hij => Int.ofNat_le.mpr (le_of_lt hij))
  refine ⟨hlen, r2, ?_, hsorted, ?_⟩
  · intro k t hk
    rw [r2] at hk
    simp only [List.get?_eq_getElem?, List.getElem?_map, List.enum, List.getElem?_enumFrom,
      Option.map_map] at hk
    cases ha : adds[k]? with
    | none => rw [ha] at hk; simp at hk
    | some y =>
      rw [ha] at hk
      simp only [Option.map_some', Option.some.injEq, Function.comp_apply, Nat.zero_add] at hk
      rw [← hk]
      exact ⟨rfl, rfl⟩
  · intro hl hf
    have hshown : (run s (adds.map AddInput.event)).shown =
        (run s (adds.map AddInput.event)).todos := by
      unfold State.shown
      rw [r4 [] hl hf, r1]
      simp [List.map_map, Function.comp_def]
    have hfin : (run s (adds.map AddInput.event)).filter = filterAll := r3.trans hf
    have hne1 : filterAll ≠ filterActive := by decide
    have hne2 : filterAll ≠ filterCompleted := by decide
    refine ⟨hshown, ?_, ?_⟩
    · rw [renderTodos_shown _ _ (r4 [] hl hf), hshown]
      have hall : (run s (adds.map AddInput.event)).todos.filter
          (fun a => passesFilter (run s (adds.map AddInput.event)).filter
            (readTodo (run s (adds.map AddInput.event)).heap a)) =
          (run s (adds.map AddInput.event)).todos := by
        rw [List.filter_eq_self]
        intro a _
        simp [passesFilter, hfin, hne1, hne2]
      rw [hall]
      apply sortByOrder_eq_self
      have e2 : (run s (adds.map AddInput.event)).todos.map
          (fun a => (readTodo (run s (adds.map AddInput.event)).heap a).order) =
          (run s (adds.map AddInput.event)).items.map Todo.order := by
        unfold State.items
        rw [List.map_map]
        rfl
      rw [e2, r5]
    · rw [hshown]
      have e3 : (run s (adds.map AddInput.event)).todos.map
          (fun a => (readTodo (run s (adds.map AddInput.event)).heap a).order.toInt) =
          (run s (adds.map AddInput.event)).items.map (fun t => t.order.toInt) := by
        unfold State.items
        rw [List.map_map]
        rfl
      rw [e3]
      exact hsorted


/-- Witness of C4: two adds on the fresh page. -/
theorem adds_from_empty_witness :
    emptyPage.todos = [] ∧ (∀ x ∈ demoAdds, trim x.titleValue ≠ []) ∧
    (run emptyPage (demoAdds.map AddInput.event)).todos.length = 2 ∧
    (run emptyPage (demoAdds.map AddInput.event)).items =
      demoAdds.enum.map (fun p => p.2.item p.1) ∧
    (run emptyPage (demoAdds.map AddInput.event)).shown =
      (run emptyPage (demoAdds.map AddInput.event)).todos :=
  ⟨rfl, by decide,
   (adds_from_empty emptyPage demoAdds rfl (by decide)).1,
   (adds_from_empty emptyPage demoAdds rfl (by decide)).2.1,
   ((adds_from_empty emptyPage demoAdds rfl (by decide)).2.2.2.2 rfl rfl).1⟩

/-- C5, on the code: two adds handled while `Date.now()` reads the same
millisecond give two items with the same `id`; one click on the delete button
of the first item then removes both, so the item count drops from 2 to 0, and
the second item stays displayed although it is no longer in `state.todos`. -/
theorem delete_removes_every_item_with_the_id :
    sameClockState.todos.length = 2 ∧
    sameClockState.items.map Todo.id = [JVal.num 1000 0, JVal.num 1000 0] ∧
    sameClockState.shownTitles = [['A'], ['B']] ∧
    (deleteClick sameClockState 0).todos.length = 0 ∧
    (deleteClick sameClockState 0).shown = [1] := by
  refine ⟨by decide, rfl, by decide, by decide, by decide⟩

/-- C10, on the code: after `A`, `B`, `C` were added and `A`, `B` deleted, adding
`D` gives it `order = 1`, below the `order = 2` of `C`.  The submit listener
sorts `state.todos` to `[D, C]` but appends the new element to the list
element, which shows `[C, D]`; a full `renderTodos` of the same state shows
`[D, C]`. -/
theorem add_appends_where_render_sorts :
    gapState.shownTitles = [['C']] ∧
    (step gapState (Event.submit ['D'] [] 4)).items.map Todo.order =
      [JVal.num 1 0, JVal.num 2 0] ∧
    (step gapState (Event.submit ['D'] [] 4)).items.map Todo.title =
      [JVal.str ['D'], JVal.str ['C']] ∧
    (step gapState (Event.submit ['D'] [] 4)).filter = filterAll ∧
    (step gapState (Event.submit ['D'] [] 4)).shownTitles = [['C'], ['D']] ∧
    (renderTodos (step gapState (Event.submit ['D'] [] 4))).shownTitles = [['D'], ['C']] := by
  refine ⟨by decide, rfl, rfl, by decide, by decide, by decide⟩


/-! ## Deleting an item -/

theorem strictEq_eq (a b : JVal) (h : JVal.strictEq a b = true) : a = b := by
  cases a <;> cases b <;> simp_all [JVal.strictEq]

theorem deleteClick_eq (s : State) (lis : List Li) (i : Nat) (li : Li)
    (hl : s.listEl = some lis) (hi : lis.get? i = some li) :
    deleteClick s i = deleteHandler s i li := by
  unfold deleteClick
  rw [hl]
  simp only [hi]

theorem deleteHandler_fields (s : State) (i : Nat) (li : Li) :
    (deleteHandler s i li).todos =
        s.todos.filter (fun t => !(JVal.strictEq (readTodo s.heap t).id (readTodo s.heap li.todo).id)) ∧
      (deleteHandler s i li).heap = s.heap :=
  ⟨rfl, rfl⟩

/-- Removing from a list whose ids are pairwise different, by strict equality
with a given id, removes at most one element. -/
theorem length_filter_id (heap : List Todo) (target : JVal) (l : List Nat)
    (hd : l.Pairwise (fun a b => JVal.strictEq (readTodo heap a).id (readTodo heap b).id = false)) :
    l.length ≤ (l.filter (fun t => !(JVal.strictEq (readTodo heap t).id target))).length + 1 := by
  induction l with
  | nil => simp
  | cons a l ih =>
    rw [List.pairwise_cons] at hd
    by_cases ha : JVal.strictEq (readTodo heap a).id target = true
    · have hall : l.filter (fun t => !(JVal.strictEq (readTodo heap t).id target)) = l := by
        rw [List.filter_eq_self]
        intro b hb
        cases hbt : JVal.strictEq (readTodo heap b).id target with
        | false => rfl
        | true =>
          have e2 := strictEq_eq _ _ hbt
          have hab := hd.1 b hb
          rw [e2, ha] at hab
          exact absurd hab (by simp)
      simp [List.filter_cons, ha, hall]
    · have := ih hd.2
      simp only [List.filter_cons, ha, Bool.not_false, Bool.false_eq_true, if_true,
        List.length_cons, Bool.not_eq_true] at this ⊢
      simp only [Bool.not_eq_true] at ha
      simp [ha]
      omega

/-- Deleting, read on states whose ids are pairwise different: the delete button
of a displayed item lowers the item count by at most one, and a second delete
with the same id changes `state.todos` no more.  (The second statement holds in
every state.) -/
theorem deleteClick_with_distinct_ids (s : State) (lis : List Li) (i : Nat) (li : Li)
    (hl : s.listEl = some lis) (hi : lis.get? i = some li)
    (hd : s.todos.Pairwise
      (fun a b => JVal.strictEq (readTodo s.heap a).id (readTodo s.heap b).id = false)) :
    s.todos.length ≤ (deleteClick s i).todos.length + 1 ∧
    (deleteClick s i).todos.length ≤ s.todos.length ∧
    ∀ j li2, (readTodo (deleteClick s i).heap li2.todo).id = (readTodo s.heap li.todo).id →
      (deleteHandler (deleteClick s i) j li2).todos = (deleteClick s i).todos := by
  rw [deleteClick_eq s lis i li hl hi]
  obtain ⟨h1, h2⟩ := deleteHandler_fields s i li
  refine ⟨?_, ?_, ?_⟩
  · rw [h1]
    exact length_filter_id s.heap _ s.todos hd
  · rw [h1]
    exact List.length_filter_le _ _
  · intro j li2 hid
    rw [(deleteHandler_fields _ j li2).1, hid, h2, h1, List.filter_filter]
    simp

/-- Items added at pairwise different clock readings have pairwise different ids. -/
theorem adds_distinct_ids (s : State) (adds : List AddInput) (h0 : s.todos = [])
    (hne : ∀ x ∈ adds, trim x.titleValue ≠ [])
    (hclock : adds.Pairwise (fun x y => x.now ≠ y.now)) :
    (run s (adds.map AddInput.event)).todos.Pairwise
      (fun a b => JVal.strictEq (readTodo (run s (adds.map AddInput.event)).heap a).id
        (readTodo (run s (adds.map AddInput.event)).heap b).id = false) := by
  have hI1 : s.items.map Todo.order =
      (List.range s.todos.length).map (fun (i : Nat) => JVal.num (i : Int) 0) := by
    simp [State.items, h0]
  have hI2 : ∀ a ∈ s.todos, a < s.heap.length := by
    intro a ha
    rw [h0] at ha
    simp at ha
  obtain ⟨_, r2, _, _, _⟩ := run_adds adds s hI1 hI2 hne
  have hitems0 : s.items = [] := by simp [State.items, h0]
  rw [hitems0, List.nil_append, h0, List.length_nil] at r2
  have hp : (run s (adds.map AddInput.event)).items.Pairwise
      (fun t u => JVal.strictEq t.id u.id = false) := by
    rw [r2, List.pairwise_map]
    have hen : (adds.enumFrom 0).Pairwise (fun p q => p.2.now ≠ q.2.now) := by
      have := hclock
      rw [← List.enumFrom_map_snd 0 adds, List.pairwise_map] at this
      exact this
    refine hen.imp ?_
    intro p q hpq
    simp [AddInput.item, Todo.new, JVal.strictEq, hpq]
  unfold State.items at hp
  rw [List.pairwise_map] at hp
  exact hp


/-! ## Consistency of the page in every reachable state -/

theorem renderTodos_consistent (X : State) (hv : ∀ a ∈ X.todos, a < X.heap.length)
    (hn : X.listEl = none → X.consistent) : (renderTodos X).consistent := by
  cases hl : X.listEl with
  | none =>
    have e : renderTodos X = X := by
      unfold renderTodos
      rw [hl]
    rw [e]
    exact hn hl
  | some lis =>
    obtain ⟨f1, f2, _⟩ := renderTodos_fields X
    have hr := renderTodos_listEl X lis hl
    refine ⟨?_, ?_⟩
    · rw [f1, f2]; exact hv
    · intro lis2 hl2 li hli
      rw [hr] at hl2
      rw [← Option.some.inj hl2, List.mem_map] at hli
      obtain ⟨a, ha, rfl⟩ := hli
      rw [mem_sortByOrder, List.mem_filter] at ha
      rw [f1]
      exact ⟨hv a ha.1, rfl⟩

theorem renderTodoItem_consistent (X : State) (a : Nat) (hc : X.consistent)
    (ha : a < X.heap.length) : (renderTodoItem X a).consistent := by
  unfold renderTodoItem
  dsimp only
  split_ifs
  · exact hc
  · exact hc
  · cases hl : X.listEl with
    | none =>
      simp only
      exact hc
    | some lis =>
      simp only
      refine ⟨hc.1, ?_⟩
      intro lis2 hl2 li hli
      simp only [Option.some.injEq] at hl2
      rw [← hl2, List.mem_append, List.mem_singleton] at hli
      rcases hli with hli | hli
      · exact hc.2 lis hl li hli
      · rw [hli]
        exact ⟨ha, rfl⟩

theorem submitHandler_consistent (s : State) (hc : s.consistent)
    (titleValue descValue : Text) (now : Int) :
    (submitHandler s titleValue descValue now).consistent := by
  by_cases hb : trim titleValue = []
  · have e : submitHandler s titleValue descValue now = s := by
      unfold submitHandler
      simp only [hb, if_true]
    rw [e]; exact hc
  · rw [submitHandler_eq s _ _ _ hb]
    apply renderTodoItem_consistent
    · refine ⟨?_, ?_⟩
      · intro a ha
        simp only [State.save] at ha ⊢
        rw [mem_sortByOrder, List.mem_append, List.mem_singleton] at ha
        rw [List.length_append, List.length_singleton]
        rcases ha with ha | ha
        · exact Nat.lt_succ_of_lt (hc.1 a ha)
        · omega
      · intro lis hl li hli
        simp only [State.save] at hl ⊢
        obtain ⟨h1, h2⟩ := hc.2 lis hl li hli
        rw [List.length_append, List.length_singleton, readTodo_append_lt _ _ _ h1]
        exact ⟨Nat.lt_succ_of_lt h1, h2⟩
    · simp [State.save]

theorem changeHandler_consistent (s : State) (hc : s.consistent) (li : Li) (checked : Bool) :
    (changeHandler s li checked).consistent := by
  unfold changeHandler
  apply renderTodos_consistent
  · intro a ha
    simp only [State.save, List.length_set] at ha ⊢
    exact hc.1 a ha
  · intro hn
    refine ⟨?_, ?_⟩
    · intro a ha
      simp only [State.save, List.length_set] at ha ⊢
      exact hc.1 a ha
    · intro lis hl
      simp only [State.save] at hn
      rw [hn] at hl
      cases hl

theorem deleteHandler_consistent (s : State) (hc : s.consistent) (i : Nat) (li : Li) :
    (deleteHandler s i li).consistent := by
  unfold deleteHandler
  refine ⟨?_, ?_⟩
  · intro a ha
    exact hc.1 a (List.mem_filter.mp ha).1
  · intro lis hl li2 hli2
    simp only [State.save] at hl ⊢
    cases hs : s.listEl with
    | none => rw [hs] at hl; simp at hl
    | some lis0 =>
      rw [hs] at hl
      simp only [Option.map_some', Option.some.injEq] at hl
      rw [← hl] at hli2
      exact hc.2 lis0 hs li2 (List.mem_of_mem_eraseIdx hli2)

theorem render_with_consistent (X s : State) (hc : s.consistent) (hh : X.heap = s.heap)
    (ht : ∀ a ∈ X.todos, a ∈ s.todos) :
    (renderTodos X).consistent := by
  apply renderTodos_consistent
  · intro a ha
    rw [hh]
    exact hc.1 a (ht a ha)
  · intro hn
    refine ⟨fun a ha => by rw [hh]; exact hc.1 a (ht a ha), ?_⟩
    intro lis hl2
    rw [hn] at hl2
    cases hl2

/-- Every handler keeps the page consistent. -/
theorem step_consistent (s : State) (e : Event) (hc : s.consistent) : (step s e).consistent := by
  cases e with
  | submit t d now => exact submitHandler_consistent s hc t d now
  | toggle i =>
    show (toggleClick s i).consistent
    unfold toggleClick
    cases hl : s.listEl with
    | none => simp only; exact hc
    | some lis =>
      simp only
      cases hi : lis.get? i with
      | none => simp only; exact hc
      | some li => simp only; exact changeHandler_consistent s hc li _
  | delete i =>
    show (deleteClick s i).consistent
    unfold deleteClick
    cases hl : s.listEl with
    | none => simp only; exact hc
    | some lis =>
      simp only
      cases hi : lis.get? i with
      | none => simp only; exact hc
      | some li => simp only; exact deleteHandler_consistent s hc i li
  | filterClick c f =>
    show (filterClickHandler s c f).consistent
    unfold filterClickHandler
    split_ifs
    · exact hc
    · cases f with
      | none => exact hc
      | some nf =>
        simp only
        split_ifs
        · exact hc
        · exact render_with_consistent _ s hc rfl (fun a ha => ha)
  | themeClick => exact hc
  | clearCompleted =>
    show (clearCompletedHandler s).consistent
    unfold clearCompletedHandler
    exact render_with_consistent _ s hc rfl (fun a ha => (List.mem_filter.mp ha).1)

theorem run_consistent (es : List Event) : ∀ s : State, s.consistent → (run s es).consistent := by
  induction es with
  | nil => intro s hc; exact hc
  | cons e es ih => intro s hc; exact ih (step s e) (step_consistent s e hc)

/-- The state `init` builds is consistent, and so is every state reached from it:
each checkbox on the page shows the `completed` flag of its item. -/
theorem reachable_consistent (ls : LocalStorage) (hasList : Bool) (s0 : State)
    (es : List Event) (h0 : init ls hasList = Except.ok s0) : (run s0 es).consistent := by
  apply run_consistent
  unfold init at h0
  cases hload : StorageManager.loadTodos ls with
  | error e => rw [hload] at h0; simp at h0
  | ok loaded =>
    rw [hload] at h0
    simp only [Except.ok.injEq] at h0
    rw [← h0]
    apply renderTodos_consistent
    · intro a ha
      simp only [List.mem_range] at ha
      exact ha
    · intro _
      refine ⟨fun a ha => by simpa using ha, ?_⟩
      intro lis hl
      cases hasList <;> simp_all


/-- In every state reached from `init`, the checkbox of a displayed item whose
`completed` flag is the boolean `b` shows `b`. -/
theorem reachable_checkbox_shows_flag (ls : LocalStorage) (hasList : Bool) (s0 : State)
    (es : List Event) (h0 : init ls hasList = Except.ok s0) (lis : List Li) (li : Li) (b : Bool)
    (hl : (run s0 es).listEl = some lis) (hli : li ∈ lis)
    (hb : (readTodo (run s0 es).heap li.todo).completed = JVal.bool b) : li.checked = b := by
  have h := ((reachable_consistent ls hasList s0 es h0).2 lis hl li hli).2
  rw [h, hb]
  rfl

/-! ## The reader needs no more fuel than the length of the text -/

theorem skipWs_length (s : Text) : (skipWs s).length ≤ s.length := by
  induction s with
  | nil => simp [skipWs]
  | cons c cs ih =>
    unfold skipWs
    split_ifs
    · simp only [List.length_cons]; omega
    · exact le_refl _

theorem consChar_length (c : Char) (o : Option (Text × Text)) (k r : Text)
    (h : consChar c o = some (k, r)) : ∃ k2, o = some (k2, r) := by
  cases o with
  | none => simp [consChar] at h
  | some p =>
    obtain ⟨k2, r2⟩ := p
    simp only [consChar, Option.some.injEq, Prod.mk.injEq] at h
    exact ⟨k2, by rw [h.2]⟩

theorem parseStringBody_length (n : Nat) : ∀ (cs k r : Text), cs.length ≤ n →
    parseStringBody cs = some (k, r) → r.length < cs.length := by
  induction n with
  | zero =>
    intro cs k r hn h
    have : cs = [] := List.length_eq_zero.mp (Nat.le_zero.mp hn)
    subst this
    simp [parseStringBody] at h
  | succ n ih =>
    intro cs k r hn h
    rw [parseStringBody.eq_def] at h
    split at h
    · simp at h
    · rename_i c cs0
      simp only [List.length_cons] at hn ⊢
      split_ifs at h with h1 h2 h3
      · simp only [Option.some.injEq, Prod.mk.injEq] at h
        rw [← h.2]; omega
      · split at h
        · simp at h
        · rename_i e cs1
          simp only [List.length_cons] at hn ⊢
          split_ifs at h with h4
          · split at h
            · rename_i a b c2 d cs2
              simp only [List.length_cons] at hn ⊢
              split at h
              · obtain ⟨k2, hk2⟩ := consChar_length _ _ _ _ h
                have := ih cs2 k2 r (by omega) hk2
                omega
              · simp at h
            · simp at h
          · split at h
            · obtain ⟨k2, hk2⟩ := consChar_length _ _ _ _ h
              have := ih cs1 k2 r (by omega) hk2
              omega
            · simp at h
      · obtain ⟨k2, hk2⟩ := consChar_length _ _ _ _ h
        have := ih cs0 k2 r (by omega) hk2
        omega

theorem spanDigits_length (s : Text) :
    (spanDigits s).2.length ≤ s.length ∧
      ((spanDigits s).1 ≠ [] → (spanDigits s).2.length < s.length) := by
  induction s with
  | nil => simp [spanDigits]
  | cons c cs ih =>
    unfold spanDigits
    split_ifs
    · simp only [List.length_cons]
      exact ⟨by omega, fun _ => by omega⟩
    · simp

theorem parseIntPart_length (s ip r : Text) (h : parseIntPart s = some (ip, r)) :
    r.length < s.length := by
  unfold parseIntPart at h
  split at h
  · simp at h
  · rename_i c cs
    split_ifs at h with h1 h2
    · simp only [Option.some.injEq, Prod.mk.injEq] at h
      rw [← h.2]; simp
    · simp only [Option.some.injEq] at h
      have hs := spanDigits_length (c :: cs)
      have h1' : (spanDigits (c :: cs)).1 ≠ [] := by
        unfold spanDigits
        simp [h2]
      have := hs.2 h1'
      rw [h] at this
      exact this

theorem parseFrac_length (s fp r : Text) (h : parseFrac s = some (fp, r)) :
    r.length ≤ s.length := by
  unfold parseFrac at h
  split at h
  · simp only [Option.some.injEq, Prod.mk.injEq] at h
    rw [← h.2]
  · rename_i c cs
    split_ifs at h
    · simp only [Option.some.injEq] at h
      have := (spanDigits_length cs).1
      rw [h] at this
      simp only [List.length_cons] at this ⊢
      omega
    · simp only [Option.some.injEq, Prod.mk.injEq] at h
      rw [← h.2]

theorem parseExpDigits_length (neg : Bool) (s : Text) (e : Int) (r : Text)
    (h : parseExpDigits neg s = some (e, r)) : r.length ≤ s.length := by
  unfold parseExpDigits at h
  dsimp only at h
  split_ifs at h <;>
  · simp only [Option.some.injEq, Prod.mk.injEq] at h
    rw [← h.2]
    exact (spanDigits_length s).1

theorem parseExp_length (s : Text) (e : Int) (r : Text) (h : parseExp s = some (e, r)) :
    r.length ≤ s.length := by
  unfold parseExp at h
  split at h
  · simp only [Option.some.injEq, Prod.mk.injEq] at h
    rw [← h.2]
  · rename_i c cs
    split_ifs at h
    · split at h
      · simp at h
      · rename_i g r0
        simp only [List.length_cons]
        split_ifs at h
        · have := parseExpDigits_length _ _ _ _ h; omega
        · have := parseExpDigits_length _ _ _ _ h; omega
        · have := parseExpDigits_length _ _ _ _ h
          simp only [List.length_cons] at this
          omega
    · simp only [Option.some.injEq, Prod.mk.injEq] at h
      rw [← h.2]

theorem parseUnsigned_length (neg : Bool) (s : Text) (v : JVal) (r : Text)
    (h : parseUnsigned neg s = some (v, r)) : r.length < s.length := by
  unfold parseUnsigned at h
  split at h
  · simp at h
  · rename_i ip s1 h1
    split at h
    · simp at h
    · rename_i fp s2 h2
      split at h
      · simp at h
      · rename_i e s3 h3
        simp only [Option.some.injEq, Prod.mk.injEq] at h
        have a1 := parseIntPart_length _ _ _ h1
        have a2 := parseFrac_length _ _ _ h2
        have a3 := parseExp_length _ _ _ h3
        rw [← h.2]
        omega

theorem parseNumber_length (s : Text) (v : JVal) (r : Text)
    (h : parseNumber s = some (v, r)) : r.length < s.length := by
  unfold parseNumber at h
  split at h
  · simp at h
  · rename_i c cs
    split_ifs at h
    · have := parseUnsigned_length _ _ _ _ h
      simp only [List.length_cons]
      omega
    · exact parseUnsigned_length _ _ _ _ h

theorem parseLiteral_length (s : Text) (v : JVal) (r : Text)
    (h : parseLiteral s = some (v, r)) : r.length < s.length := by
  unfold parseLiteral at h
  split at h
  · simp only [Option.some.injEq, Prod.mk.injEq] at h
    rw [← h.2]; simp only [List.length_cons]; omega
  · simp only [Option.some.injEq, Prod.mk.injEq] at h
    rw [← h.2]; simp only [List.length_cons]; omega
  · simp only [Option.some.injEq, Prod.mk.injEq] at h
    rw [← h.2]; simp only [List.length_cons]; omega
  · simp at h


/-- Whatever the reader returns, it has consumed at least one character. -/
theorem parseJ_length (fuel : Nat) : ∀ (mode : PMode) (s : Text) (v : JVal) (r : Text),
    parseJ fuel mode s = some (v, r) → r.length < s.length := by
  induction fuel with
  | zero => intro mode s v r h; simp [parseJ] at h
  | succ f ih =>
    intro mode s v r h
    have hw := skipWs_length s
    cases mode with
    | value =>
      rw [parseJ] at h
      split at h
      · simp at h
      · rename_i c cs hs
        rw [hs] at hw
        simp only [List.length_cons] at hw
        split_ifs at h with c1 c2 c3 c4
        · split at h
          · simp at h
          · rename_i c1 cs1 hs1
            have hw1 := skipWs_length cs
            rw [hs1] at hw1
            simp only [List.length_cons] at hw1
            split_ifs at h
            · simp only [Option.some.injEq, Prod.mk.injEq] at h
              rw [← h.2]; omega
            · have := ih _ _ _ _ h
              simp only [List.length_cons] at this
              omega
        · split at h
          · simp at h
          · rename_i c1 cs1 hs1
            have hw1 := skipWs_length cs
            rw [hs1] at hw1
            simp only [List.length_cons] at hw1
            split_ifs at h
            · simp only [Option.some.injEq, Prod.mk.injEq] at h
              rw [← h.2]; omega
            · split at h
              · rename_i v1 r1 hv1
                have a1 := ih _ _ _ _ hv1
                have a2 := ih _ _ _ _ h
                simp only [List.length_cons] at a1
                omega
              · simp at h
        · split at h
          · rename_i t r1 ht
            simp only [Option.some.injEq, Prod.mk.injEq] at h
            have := parseStringBody_length cs.length cs t r1 (le_refl _) ht
            rw [← h.2]; omega
          · simp at h
        · have := parseNumber_length _ _ _ h
          simp only [List.length_cons] at this
          omega
        · have := parseLiteral_length _ _ _ h
          simp only [List.length_cons] at this
          omega
    | elems acc =>
      rw [parseJ] at h
      split at h
      · simp at h
      · rename_i c cs hs
        rw [hs] at hw
        simp only [List.length_cons] at hw
        split_ifs at h
        · split at h
          · rename_i v1 r1 hv1
            have a1 := ih _ _ _ _ hv1
            have a2 := ih _ _ _ _ h
            omega
          · simp at h
        · simp only [Option.some.injEq, Prod.mk.injEq] at h
          rw [← h.2]; omega
    | member acc =>
      rw [parseJ] at h
      split at h
      · simp at h
      · rename_i c cs hs
        rw [hs] at hw
        simp only [List.length_cons] at hw
        split_ifs at h
        split at h
        · simp at h
        · rename_i k r1 hk
          have a0 := parseStringBody_length cs.length cs k r1 (le_refl _) hk
          split at h
          · simp at h
          · rename_i c2 r2 hs2
            have hw2 := skipWs_length r1
            rw [hs2] at hw2
            simp only [List.length_cons] at hw2
            split_ifs at h
            split at h
            · rename_i v1 r3 hv1
              have a1 := ih _ _ _ _ hv1
              have a2 := ih _ _ _ _ h
              omega
            · simp at h
    | members acc =>
      rw [parseJ] at h
      split at h
      · simp at h
      · rename_i c cs hs
        rw [hs] at hw
        simp only [List.length_cons] at hw
        split_ifs at h
        · have := ih _ _ _ _ h
          omega
        · simp only [Option.some.injEq, Prod.mk.injEq] at h
          rw [← h.2]; omega


/-- One more unit of fuel changes nothing once the fuel exceeds the length of
the text. -/
theorem parseJ_fuel_succ (fuel : Nat) : ∀ (mode : PMode) (s : Text), s.length < fuel →
    parseJ (fuel + 1) mode s = parseJ fuel mode s := by
  induction fuel with
  | zero => intro mode s h; omega
  | succ g ih =>
    intro mode s hlen
    have hw := skipWs_length s
    cases mode with
    | value =>
      conv_lhs => rw [parseJ]
      conv_rhs => rw [parseJ]
      cases hs : skipWs s with
      | nil => rfl
      | cons c cs =>
        rw [hs] at hw
        simp only [List.length_cons] at hw
        have hw1 := skipWs_length cs
        simp only
        by_cases h1 : c = lbrace
        · simp only [h1, if_true]
          cases hs1 : skipWs cs with
          | nil => rfl
          | cons c1 cs1 =>
            rw [hs1] at hw1
            simp only [List.length_cons] at hw1
            simp only
            by_cases h2 : c1 = rbrace
            · simp only [h2, if_true]
            · simp only [h2, if_false]
              exact ih _ _ (by simp only [List.length_cons]; omega)
        · simp only [h1, if_false]
          by_cases h3 : c = '['
          · simp only [h3, if_true]
            cases hs1 : skipWs cs with
            | nil => rfl
            | cons c1 cs1 =>
              rw [hs1] at hw1
              simp only [List.length_cons] at hw1
              simp only
              by_cases h4 : c1 = ']'
              · simp only [h4, if_true]
              · simp only [h4, if_false]
                rw [ih PMode.value (c1 :: cs1) (by simp only [List.length_cons]; omega)]
                cases hv : parseJ g PMode.value (c1 :: cs1) with
                | none => rfl
                | some p =>
                  obtain ⟨v, r⟩ := p
                  have hr := parseJ_length g _ _ _ _ hv
                  simp only [List.length_cons] at hr
                  simp only
                  exact ih _ _ (by omega)
          · simp only [h3, if_false]
    | elems acc =>
      conv_lhs => rw [parseJ]
      conv_rhs => rw [parseJ]
      cases hs : skipWs s with
      | nil => rfl
      | cons c cs =>
        rw [hs] at hw
        simp only [List.length_cons] at hw
        simp only
        by_cases h1 : c = ','
        · simp only [h1, if_true]
          rw [ih PMode.value cs (by omega)]
          cases hv : parseJ g PMode.value cs with
          | none => rfl
          | some p =>
            obtain ⟨v, r⟩ := p
            have hr := parseJ_length g _ _ _ _ hv
            simp only
            exact ih _ _ (by omega)
        · simp only [h1, if_false]
    | member acc =>
      conv_lhs => rw [parseJ]
      conv_rhs => rw [parseJ]
      cases hs : skipWs s with
      | nil => rfl
      | cons c cs =>
        rw [hs] at hw
        simp only [List.length_cons] at hw
        simp only
        by_cases h1 : c = dquote
        · simp only [h1, if_true]
          cases hk : parseStringBody cs with
          | none => rfl
          | some p =>
            obtain ⟨k, r1⟩ := p
            have a0 := parseStringBody_length cs.length cs k r1 (le_refl _) hk
            have hw2 := skipWs_length r1
            simp only
            cases hs2 : skipWs r1 with
            | nil => rfl
            | cons c2 r2 =>
              rw [hs2] at hw2
              simp only [List.length_cons] at hw2
              simp only
              by_cases h2 : c2 = ':'
              · simp only [h2, if_true]
                rw [ih PMode.value r2 (by omega)]
                cases hv : parseJ g PMode.value r2 with
                | none => rfl
                | some q =>
                  obtain ⟨v, r3⟩ := q
                  have hr := parseJ_length g _ _ _ _ hv
                  simp only
                  exact ih _ _ (by omega)
              · simp only [h2, if_false]
        · simp only [h1, if_false]
    | members acc =>
      conv_lhs => rw [parseJ]
      conv_rhs => rw [parseJ]
      cases hs : skipWs s with
      | nil => rfl
      | cons c cs =>
        rw [hs] at hw
        simp only [List.length_cons] at hw
        simp only
        by_cases h1 : c = ','
        · simp only [h1, if_true]
          exact ih _ _ (by omega)
        · simp only [h1, if_false]

/-- The result of the reader does not depend on the fuel, as soon as the fuel
exceeds the length of the text: `JSON.parse` is modelled without any bound on
the nesting of the text. -/
theorem parseJ_fuel_irrelevant (mode : PMode) (s : Text) (extra : Nat) :
    parseJ (s.length + 1 + extra) mode s = parseJ (s.length + 1) mode s := by
  induction extra with
  | zero => rfl
  | succ k ih =>
    rw [← ih]
    exact parseJ_fuel_succ (s.length + 1 + k) mode s (by omega)

end TodoApp
